import Mathlib

/-!
# A verification development for the freeos syscall layer

Shallow embedding, in Lean 4, of the syscall implementations found in
`src/api/src/imp/**` and `src/core/src/**` of the repository, together with
theorems settling the behavioural claims about them.

Conventions used throughout:
* Rust `LinuxResult<T>` becomes `Except Errno T`.
* User pointers that the kernel dereferences become `Option` values:
  `none` models a null (or unreadable) pointer, `some v` a readable pointer
  whose pointee currently holds `v`.  A `get_as_mut()?` / `get_as_ref()?`
  on such a pointer fails with `Errno.EFAULT` when the pointer is `none`.
* Collaborator services that live outside `src/` (the fd table, the VFS,
  the address-space manager) are modelled from the spec, and each such
  definition says so in its doc comment.
-/

set_option linter.unusedVariables false

/-- Linux errno kinds used by the syscall layer (spec §6 "Error codes"). -/
inductive Errno where
  | EPERM | ENOENT | ESRCH | EAGAIN | EACCES | EFAULT | EEXIST | ENODEV
  | EINVAL | ENOMEM | EBADF | EISDIR | ERANGE | ENOEXEC | ENOSYS | EIDRM
  deriving DecidableEq, Repr

/-! ## ioctl (src/api/src/imp/fs/ctl.rs, `sys_ioctl`) -/

namespace Ioctl

/-- The four recognized ioctl request codes (constants at the top of ctl.rs). -/
def TIOCGPGRP : Nat := 21519
def TIOCSPGRP : Nat := 21520
def TCGETS : Nat := 21505
def TCSETS : Nat := 21506

/-- The termios record written by `TCGETS` (the literal in `sys_ioctl`). -/
structure Termios where
  c_iflag : Nat
  c_oflag : Nat
  c_cflag : Nat
  c_lflag : Nat
  c_line : Nat
  c_cc : List Nat
  deriving DecidableEq, Repr

/-- The default termios value `sys_ioctl` builds for `TCGETS`. -/
def defaultTermios : Termios :=
  { c_iflag := 0x500
    c_oflag := 0x5
    c_cflag := 0xbf
    c_lflag := 0x8a3b
    c_line := 0
    c_cc := [3, 28, 127, 21, 4, 0, 1, 0, 17, 19, 26, 0, 18, 15, 23, 22, 0, 0, 0] }

/-- Kernel-visible state that an ioctl call could conceivably touch: the
calling process's group id is the only piece of kernel state `sys_ioctl`
reads.  Modelled from the spec: the process/group model is an external
collaborator; all `sys_ioctl` does with it is read the current pgid. -/
structure KState where
  pgid : Nat
  deriving DecidableEq, Repr

/-- What `sys_ioctl` wrote into the user pointer `argp`, if anything. -/
inductive UserWrite where
  | nothing
  | wrotePgid (v : Nat)
  | wroteTermios (t : Termios)
  deriving DecidableEq, Repr

/-- Shallow embedding of `sys_ioctl` from src/api/src/imp/fs/ctl.rs.
`argp` models the user pointer: `none` is a null/unreadable pointer (its
dereference faults), `some v` is a readable pointer whose pointee is `v`.
Returns the syscall result, the (unchanged) kernel state, and the write
performed into user memory. -/
def sys_ioctl (st : KState) (op : Nat) (argp : Option Nat) :
    Except Errno Int × KState × UserWrite :=
  if op = TIOCGPGRP then
    match argp with
    | none => (.error .EFAULT, st, .nothing)
    | some _ => (.ok 0, st, .wrotePgid st.pgid)
  else if op = TIOCSPGRP then
    match argp with
    | none => (.error .EFAULT, st, .nothing)
    | some _pgid => (.ok 0, st, .nothing)
  else if op = TCGETS then
    match argp with
    | none => (.error .EFAULT, st, .nothing)
    | some _ => (.ok 0, st, .wroteTermios defaultTermios)
  else if op = TCSETS then
    (.ok 0, st, .nothing)
  else
    (.ok 0, st, .nothing)

end Ioctl

/-! ## epoll (src/api/src/imp/fs/io_mpx/epoll.rs) -/

namespace Epoll

/-- Event-mask bits (linux_raw_sys values). -/
def EPOLLIN : Nat := 0x1
def EPOLLOUT : Nat := 0x4
def EPOLLERR : Nat := 0x8

def EPOLL_CTL_ADD : Nat := 1
def EPOLL_CTL_DEL : Nat := 2
def EPOLL_CTL_MOD : Nat := 3

/-- `EpollEvent` as in epoll.rs: a subscription mask and an opaque cookie. -/
structure EpollEvent where
  events : Nat
  data : Nat
  deriving DecidableEq, Repr

/-- The interest map of an `EpollInstance`: watched fd ↦ event.  The Rust
code stores it in a `BTreeMap<usize, EpollEvent>`; we model it as an
association list in key order with unique keys. -/
def Interest := List (Nat × EpollEvent)

/-- Result of `get_file_like(fd).and_then(|f| f.poll())` for one fd.
Modelled from the spec (§4.2, §3 "File-like"): a live fd polls to a
readable/writable pair, a dead fd or a failing poll is an error. -/
inductive PollOutcome where
  | ok (readable writable : Bool)
  | err
  deriving DecidableEq, Repr

/-- The fd world an epoll operation runs against: what each fd currently
polls to, `none` meaning the fd is not a live file-like.  Modelled from the
spec: the fd table is an external collaborator (`get_file_like` returns a
handle or `BadFd`). -/
def FdWorld := Nat → Option PollOutcome

def lookupFd (l : Interest) (fd : Nat) : Option EpollEvent :=
  match l with
  | [] => none
  | (k, v) :: rest => if k = fd then some v else lookupFd rest fd

def containsFd (l : Interest) (fd : Nat) : Bool :=
  (lookupFd l fd).isSome

/-- `BTreeMap::insert` on the association-list model (keeps key order for
an already-sorted list when the key is fresh or replaces in place). -/
def insertFd (l : Interest) (fd : Nat) (ev : EpollEvent) : Interest :=
  match l with
  | [] => [(fd, ev)]
  | (k, v) :: rest =>
    if fd < k then (fd, ev) :: (k, v) :: rest
    else if fd = k then (fd, ev) :: rest
    else (k, v) :: insertFd rest fd ev

def removeFd (l : Interest) (fd : Nat) : Interest :=
  match l with
  | [] => []
  | (k, v) :: rest => if k = fd then rest else (k, v) :: removeFd rest fd

/-- Shallow embedding of `EpollInstance::control` from epoll.rs.  `world`
supplies `get_file_like`: the function first verifies the target fd is
live (else `EBADF`), then dispatches on the op.  Returns the result and
the updated interest map. -/
def control (world : FdWorld) (l : Interest) (op : Nat) (fd : Nat)
    (event : EpollEvent) : Except Errno Nat × Interest :=
  match world fd with
  | none => (.error .EBADF, l)
  | some _ =>
    if op = EPOLL_CTL_ADD then
      if containsFd l fd then (.error .EEXIST, l)
      else (.ok 0, insertFd l fd event)
    else if op = EPOLL_CTL_MOD then
      if !containsFd l fd then (.error .ENOENT, l)
      else (.ok 0, insertFd l fd event)
    else if op = EPOLL_CTL_DEL then
      if !containsFd l fd then (.error .ENOENT, l)
      else (.ok 0, removeFd l fd)
    else (.error .EINVAL, l)

/-- Shallow embedding of `sys_epoll_ctl` from epoll.rs, given that `epfd`
resolved to a live epoll instance with interest map `l` (the
`EpollInstance::from_fd(epfd)?` step).  `event` models the user pointer to
the epoll_event: for `EPOLL_CTL_DEL` a null pointer is replaced by
a dummy event; for every other op a null pointer faults. -/
def sys_epoll_ctl (world : FdWorld) (l : Interest) (op : Nat) (fd : Nat)
    (event : Option EpollEvent) : Except Errno Int × Interest :=
  let ev? : Except Errno EpollEvent :=
    if op = EPOLL_CTL_DEL then
      match event with
      | none => .ok { events := 0, data := 0 }
      | some e => .ok e
    else
      match event with
      | none => .error .EFAULT
      | some e => .ok e
  match ev? with
  | .error e => (.error e, l)
  | .ok ev =>
    match control world l op fd ev with
    | (.error e, l') => (.error e, l')
    | (.ok n, l') => (.ok (n : Int), l')

/-- One output slot of `epoll_wait`'s event array. -/
structure OutEvent where
  events : Nat
  data : Nat
  deriving DecidableEq, Repr

/-- Shallow embedding of the per-entry body of `EpollInstance::poll_all`:
what one watched fd contributes to the output array (at most one event). -/
def sampleEntry (world : FdWorld) (fd : Nat) (ev : EpollEvent) :
    Option OutEvent :=
  match world fd with
  | none =>
    if ev.events &&& EPOLLERR ≠ 0 then some ⟨EPOLLERR, ev.data⟩ else none
  | some .err =>
    if ev.events &&& EPOLLERR ≠ 0 then some ⟨EPOLLERR, ev.data⟩ else none
  | some (.ok r w) =>
    if r && (ev.events &&& EPOLLIN ≠ 0) then some ⟨EPOLLIN, ev.data⟩
    else if w && (ev.events &&& EPOLLOUT ≠ 0) then some ⟨EPOLLOUT, ev.data⟩
    else none

/-- Shallow embedding of the loop of `EpollInstance::poll_all`: iterate the
interest map in order, stop as soon as the output array (capacity
`maxevents`) is full, append at most one event per entry.  `acc` is the
list of events already written. -/
def pollAllAux (world : FdWorld) : Interest → Nat → List OutEvent →
    List OutEvent
  | [], _, acc => acc
  | (fd, ev) :: rest, maxevents, acc =>
    if maxevents ≤ acc.length then acc
    else
      match sampleEntry world fd ev with
      | none => pollAllAux world rest maxevents acc
      | some out => pollAllAux world rest maxevents (acc ++ [out])

/-- `EpollInstance::poll_all`: the sequence of events written into the
user's array (the returned count is its length). -/
def poll_all (world : FdWorld) (l : Interest) (maxevents : Nat) :
    List OutEvent :=
  pollAllAux world l maxevents []

end Epoll

/-! ## getdents64 (src/api/src/imp/fs/ctl.rs, `DirBuffer` and `sys_getdents64`) -/

namespace Getdents

/-- A directory entry as the packer sees it: the length of its name in
bytes and its file-type code.  (The actual name bytes play no role in the
claims; only the name length enters the record-length computation.) -/
structure DirEntry where
  nameLen : Nat
  dtype : Nat
  deriving DecidableEq, Repr

/-- `offset_of!(linux_dirent64, d_name)`: 8 (d_ino) + 8 (d_off) +
2 (d_reclen) + 1 (d_type). -/
def NAME_OFFSET : Nat := 19

/-- Record length computed in `DirBuffer::write_entry`:
`NAME_OFFSET + name.len() + 1`, rounded up to
`align_of::<linux_dirent64>() = 8`. -/
def reclen (e : DirEntry) : Nat :=
  ((NAME_OFFSET + e.nameLen + 1) + 7) / 8 * 8

/-- `DirBuffer::write_entry` succeeds iff the record fits in the remaining
space `buf.len().saturating_sub(offset)` (Nat subtraction is saturating). -/
def fits (len offset : Nat) (e : DirEntry) : Bool :=
  decide (reclen e ≤ len - offset)

/-- The state `sys_getdents64` reads and writes.  Modelled from the spec
(§3 "Directory cursor"): a `Directory` holds a one-slot carry buffer
(`last_dirent`) for the last read-but-not-delivered entry, and the
underlying VFS iterator, modelled as the list of entries it has yet to
yield in order. -/
structure DirState where
  carry : Option DirEntry
  pending : List DirEntry
  deriving DecidableEq, Repr

/-- The read-one/emit-one loop of `sys_getdents64`: starting from buffer
offset `offset`, keep reading entries from the iterator and packing them;
when one does not fit, it becomes the new carry and the iterator keeps the
rest.  Returns (final offset, entries emitted by the loop, new carry,
entries left in the iterator). -/
def packLoop (len : Nat) : Nat → List DirEntry →
    Nat × List DirEntry × Option DirEntry × List DirEntry
  | offset, [] => (offset, [], none, [])
  | offset, e :: rest =>
    if fits len offset e then
      let r := packLoop len (offset + reclen e) rest
      (r.1, e :: r.2.1, r.2.2)
    else (offset, [], some e, rest)

/-- Shallow embedding of `sys_getdents64` for a buffer of `len` bytes.
Returns (result, records emitted into the buffer in order, new directory
state). -/
def sys_getdents64 (st : DirState) (len : Nat) :
    Except Errno Nat × List DirEntry × DirState :=
  match st.carry with
  | some ent =>
    if fits len 0 ent then
      let r := packLoop len (reclen ent) st.pending
      if r.2.2.1.isSome && r.1 == 0 then
        (.error .EINVAL, [], ⟨r.2.2.1, r.2.2.2⟩)
      else (.ok r.1, ent :: r.2.1, ⟨r.2.2.1, r.2.2.2⟩)
    else (.error .EINVAL, [], st)
  | none =>
    let r := packLoop len 0 st.pending
    if r.2.2.1.isSome && r.1 == 0 then
      (.error .EINVAL, [], ⟨r.2.2.1, r.2.2.2⟩)
    else (.ok r.1, r.2.1, ⟨r.2.2.1, r.2.2.2⟩)

/-- Total bytes of a record list. -/
def totalBytes (es : List DirEntry) : Nat :=
  (es.map reclen).sum

end Getdents

/-! ## select (src/api/src/imp/fs/io_mpx/select.rs) -/

namespace Select

/-- `FD_SETSIZE` from select.rs. -/
def FD_SETSIZE : Nat := 1024

/-- An fd_set, one boolean per fd.  The Rust code stores
`ceil(1024/word_bits)` machine words; bit `fd` of that array is modelled
as the value at `fd`. -/
def FdSet := Nat → Bool

/-- The all-zero bitset. -/
def emptySet : FdSet := fun _ => false

/-- The three result bitsets and the ready count accumulated by
`FdSets::poll_all`. -/
structure PassResult where
  rOut : FdSet
  wOut : FdSet
  eOut : FdSet
  num : Nat

def setBit (s : FdSet) (fd : Nat) : FdSet :=
  fun x => if x = fd then true else s x

/-- The per-fd body of the scan loop in `FdSets::poll_all`: skip fds in no
set; poll the rest; on success set the read/write output bits the caller
asked for, on lookup/poll failure set the except bit iff the caller had
the fd in the except set.  Each set bit bumps `res_num`. -/
def sampleFd (world : Epoll.FdWorld) (rs ws es : FdSet) (acc : PassResult)
    (fd : Nat) : PassResult :=
  if rs fd || ws fd || es fd then
    match world fd with
    | some (.ok r w) =>
      let acc1 :=
        if r && rs fd then
          { acc with rOut := setBit acc.rOut fd, num := acc.num + 1 }
        else acc
      if w && ws fd then
        { acc1 with wOut := setBit acc1.wOut fd, num := acc1.num + 1 }
      else acc1
    | _ =>
      if es fd then
        { acc with eOut := setBit acc.eOut fd, num := acc.num + 1 }
      else acc
  else acc

/-- `FdSets::poll_all`: one sampling pass over fds `0 .. nfds-1` starting
from all-zero result sets.  (The Rust code walks the bitset a word at a
time, skipping all-zero words, and visits exactly the fds below `nfds`
that are in some set; the embedding visits each fd below `nfds` in order,
which computes the same result sets and count.) -/
def poll_all (world : Epoll.FdWorld) (nfds : Nat) (rs ws es : FdSet) :
    PassResult :=
  (List.range nfds).foldl (sampleFd world rs ws es)
    ⟨emptySet, emptySet, emptySet, 0⟩

/-- Bit `fd` of a possibly-null user fd_set (null reads as empty). -/
def inSet (o : Option FdSet) (fd : Nat) : Bool :=
  o.elim false (fun s => s fd)

/-- The bits of one input fd_set the sampling loop actually consults: the
caller's bit, masked to fds below the clamped `nfds` (`FdSets::from`
copies only words below `nfds`; the scan loop stops at `nfds`). -/
def maskSet (n : Nat) (o : Option FdSet) : FdSet :=
  fun fd => decide (fd < n) && inSet o fd

/-- One full sampling pass of `sys_select` over the masked caller sets. -/
def selectPass (world : Epoll.FdWorld) (n : Nat)
    (rfds wfds efds : Option FdSet) : PassResult :=
  poll_all world n (maskSet n rfds) (maskSet n wfds) (maskSet n efds)

/-- Shallow embedding of `sys_select` specialised to a zero timeout
(`timeval {0,0}`): the deadline is the entry time, so the wait loop runs
exactly one sampling pass and returns its count (the pass has already
written the result sets back).  Each of the three fd_set pointers is
`none` when null; a non-null input pointer contributes its bits below the
clamped `nfds` (`FdSets::from`), is zero-initialized, and then receives
the pass's result set.  Returns the ready count and the final contents of
the three user fd_sets. -/
def sys_select_zero (world : Epoll.FdWorld) (nfds : Int)
    (rfds wfds efds : Option FdSet) :
    Except Errno (Nat × Option FdSet × Option FdSet × Option FdSet) :=
  if nfds < 0 then .error .EINVAL
  else
    let n := min nfds.toNat FD_SETSIZE
    let res := selectPass world n rfds wfds efds
    .ok (res.num, rfds.map fun _ => res.rOut, wfds.map fun _ => res.wOut,
      efds.map fun _ => res.eOut)

/-- "No watched fd is ready", phrased over the caller's fd_sets: a live
fd polls to nothing that was asked for; a dead or failing fd is not in
the except set. -/
def notReadyUser (world : Epoll.FdWorld)
    (rfds wfds efds : Option FdSet) (fd : Nat) : Prop :=
  match world fd with
  | some (.ok r w) =>
    ¬(r = true ∧ inSet rfds fd = true) ∧
    ¬(w = true ∧ inSet wfds fd = true)
  | _ => ¬ inSet efds fd = true

/-- "No watched fd is ready" for one fd, phrased over the masked sets:
a live fd contributes nothing readable/writable that was asked for, and a
dead/failing fd is not in the except set. -/
def notReady (world : Epoll.FdWorld) (rs ws es : FdSet) (fd : Nat) : Prop :=
  match world fd with
  | some (.ok r w) => ¬(r ∧ rs fd) ∧ ¬(w ∧ ws fd)
  | _ => ¬ es fd

instance (world : Epoll.FdWorld) (rs ws es : FdSet) (fd : Nat) :
    Decidable (notReady world rs ws es fd) := by
  unfold notReady
  cases world fd with
  | none => exact inferInstance
  | some o => cases o <;> exact inferInstance

end Select

/-! ## splice (src/api/src/imp/fs/io.rs, `sys_splice` and helpers) -/

namespace Splice

/-- A pipe endpoint.  Modelled from the spec (§3 "Pipe"): direction flags
`readable`/`writable`, the current `available_data` byte count, and the
`closed` flag.  A read takes bytes out; a write to a pipe accepts the
whole buffer. -/
structure PipeState where
  canRead : Bool
  canWrite : Bool
  avail : Nat
  closed : Bool
  deriving DecidableEq, Repr

/-- A regular file.  Modelled from the spec (§3 "File-like"): size and the
current sequential offset; positional reads return
`min(requested, size - offset)` bytes and positional writes accept the
whole buffer, extending the file. -/
structure FileState where
  size : Nat
  pos : Nat
  deriving DecidableEq, Repr

/-- What an fd resolves to in the fd table, as far as splice cares:
a pipe, a regular file, some other file-like, or nothing.  Modelled from
the spec (§4.2): `Pipe::from_fd`/`File::from_fd` downcast a live file-like
and fail on the wrong kind. -/
inductive FdObj where
  | pipe (p : PipeState)
  | file (f : FileState)
  | other
  deriving DecidableEq, Repr

def FdTable := Int → Option FdObj

/-- `Pipe::from_fd(fd).ok()`: the pipe behind `fd`, when it is one. -/
def pipeOf (t : FdTable) (fd : Int) : Option PipeState :=
  match t fd with | some (.pipe p) => some p | _ => none

/-- The loop of `splice_pipe_to_file`, with a structural fuel bound:
drain available pipe bytes, 8 KiB at a time, positionally writing at
`*off_out` and advancing it.  Each surviving iteration moves at least one
byte, so a fuel of the initial `remaining` never runs out. -/
def splicePipeToFileF : Nat → PipeState → FileState → Nat → Nat →
    Nat × PipeState × FileState × Nat
  | 0, p, f, offOut, _ => (0, p, f, offOut)
  | fuel + 1, p, f, offOut, remaining =>
    if remaining = 0 then (0, p, f, offOut)
    else
      if p.avail = 0 then (0, p, f, offOut)
      else
        let chunk := min (min 8192 remaining) p.avail
        let bytesRead := min chunk p.avail
        let p' : PipeState := { p with avail := p.avail - bytesRead }
        if bytesRead = 0 then (0, p', f, offOut)
        else
          let written := bytesRead
          let f' : FileState :=
            { f with size := max f.size (offOut + written) }
          let offOut' := offOut + written
          if written < bytesRead then (written, p', f', offOut')
          else
            let r := splicePipeToFileF fuel p' f' offOut'
              (remaining - written)
            (written + r.1, r.2)

/-- `splice_pipe_to_file` for a request of `remaining` bytes. -/
def splicePipeToFile (p : PipeState) (f : FileState) (offOut : Nat)
    (remaining : Nat) : Nat × PipeState × FileState × Nat :=
  splicePipeToFileF remaining p f offOut remaining

/-- The loop of `splice_file_to_pipe`, with a structural fuel bound:
positional reads at `*off_in` (stopping once `*off_in` reaches the file
size), writing the bytes into the pipe. -/
def spliceFileToPipeF : Nat → FileState → PipeState → Nat → Nat →
    Nat × FileState × PipeState × Nat
  | 0, f, p, offIn, _ => (0, f, p, offIn)
  | fuel + 1, f, p, offIn, remaining =>
    if remaining = 0 then (0, f, p, offIn)
    else
      let chunk := min 8192 remaining
      if f.size ≤ offIn then (0, f, p, offIn)
      else
        let readBytes := min chunk (f.size - offIn)
        let offIn' := offIn + readBytes
        if readBytes = 0 then (0, f, p, offIn')
        else
          let written := readBytes
          let p' : PipeState := { p with avail := p.avail + written }
          if written < readBytes then (written, f, p', offIn')
          else
            let r := spliceFileToPipeF fuel f p' offIn'
              (remaining - written)
            (written + r.1, r.2)

/-- `splice_file_to_pipe` for a request of `remaining` bytes. -/
def spliceFileToPipe (f : FileState) (p : PipeState) (offIn : Nat)
    (remaining : Nat) : Nat × FileState × PipeState × Nat :=
  spliceFileToPipeF remaining f p offIn remaining

/-- Results of a splice call: the byte count together with the updated
endpoint objects and user offset values. -/
inductive SpliceOutcome where
  | pipeToFile (total : Nat) (p : PipeState) (f : FileState) (offOut : Nat)
  | fileToPipe (total : Nat) (f : FileState) (p : PipeState) (offIn : Nat)
  deriving DecidableEq, Repr

/-- Shallow embedding of `sys_splice` from io.rs.  `offIn`/`offOut` model
the user offset pointers (`none` = null).  The checks appear in source
order: equal fds, negative offset values, pipe-endpoint classification,
direction permission, then the null check on the file side's offset. -/
def sys_splice (t : FdTable) (fdIn fdOut : Int) (offIn offOut : Option Int)
    (len : Nat) : Except Errno SpliceOutcome :=
  if fdIn = fdOut then .error .EINVAL
  else if offIn.elim false (fun v => decide (v < 0)) then .error .EINVAL
  else if offOut.elim false (fun v => decide (v < 0)) then .error .EINVAL
  else
    match pipeOf t fdIn, pipeOf t fdOut with
    | some p, none =>
      if !p.canRead then .error .EPERM
      else
        match offOut with
        | none => .error .EINVAL
        | some oOut =>
          match t fdOut with
          | some (.file f) =>
            let r := splicePipeToFile p f oOut.toNat len
            .ok (.pipeToFile r.1 r.2.1 r.2.2.1 r.2.2.2)
          | some _ => .error .EINVAL
          | none => .error .EBADF
    | none, some p =>
      if !p.canWrite then .error .EPERM
      else
        match offIn with
        | none => .error .EINVAL
        | some oIn =>
          match t fdIn with
          | some (.file f) =>
            let r := spliceFileToPipe f p oIn.toNat len
            .ok (.fileToPipe r.1 r.2.1 r.2.2.1 r.2.2.2)
          | some _ => .error .EINVAL
          | none => .error .EBADF
    | _, _ => .error .EINVAL

end Splice

/-! ## copy_file_range (src/api/src/imp/fs/io.rs, `sys_copy_file_range`) -/

namespace Cfr

/-- A regular file for the copy engine.  Modelled from the spec (§3, §4.5):
a size and a sequential offset; `read`/`read_at` return
`min(requested, size - position)` bytes, `write`/`write_at` accept the
whole buffer and extend the file as needed. -/
structure CfrFile where
  size : Nat
  pos : Nat
  deriving DecidableEq, Repr

/-- What an fd resolves to, as far as `File::from_fd` cares. -/
inductive CfrObj where
  | file (f : CfrFile)
  | other
  deriving DecidableEq, Repr

/-- The copy loop of `sys_copy_file_range`, with a structural fuel bound
(each surviving iteration moves at least one byte, so a fuel of the
initial `remaining` never runs out): per iteration move
`min(remaining, 8192)` bytes, reading positionally through `*off_in` when
non-null (advancing it) and through the file offset otherwise, writing
symmetrically; stop on a zero-byte read or a short write.  Returns
(total copied, updated input file, updated output file, updated user
offsets). -/
def cfrLoopF : Nat → CfrFile → CfrFile → Option Nat → Option Nat → Nat →
    Nat × CfrFile × CfrFile × Option Nat × Option Nat
  | 0, fin, fout, offIn, offOut, _ => (0, fin, fout, offIn, offOut)
  | fuel + 1, fin, fout, offIn, offOut, remaining =>
    if remaining = 0 then (0, fin, fout, offIn, offOut)
    else
      let chunk := min 8192 remaining
      let readPos := match offIn with | none => fin.pos | some o => o
      let readBytes := min chunk (fin.size - readPos)
      let fin' := match offIn with
        | none => { fin with pos := fin.pos + readBytes }
        | some _ => fin
      let offIn' := offIn.map (· + readBytes)
      if readBytes = 0 then (0, fin', fout, offIn', offOut)
      else
        let written := readBytes
        let fout' : CfrFile := match offOut with
          | none => ⟨max fout.size (fout.pos + written), fout.pos + written⟩
          | some o => { fout with size := max fout.size (o + written) }
        let offOut' := offOut.map (· + written)
        if written < readBytes then (written, fin', fout', offIn', offOut')
        else
          let r := cfrLoopF fuel fin' fout' offIn' offOut'
            (remaining - written)
          (written + r.1, r.2)

/-- The copy loop for a request of `remaining` bytes. -/
def cfrLoop (fin fout : CfrFile) (offIn offOut : Option Nat)
    (remaining : Nat) :
    Nat × CfrFile × CfrFile × Option Nat × Option Nat :=
  cfrLoopF remaining fin fout offIn offOut remaining

/-- Shallow embedding of `sys_copy_file_range` from io.rs: reject equal
fds with `EINVAL`, resolve both fds to regular files, then run the copy
loop over `len` bytes. -/
def sys_copy_file_range (t : Int → Option CfrObj) (fdIn fdOut : Int)
    (offIn offOut : Option Nat) (len : Nat) :
    Except Errno (Nat × CfrFile × CfrFile × Option Nat × Option Nat) :=
  if fdIn = fdOut then .error .EINVAL
  else
    match t fdIn with
    | none => .error .EBADF
    | some .other => .error .EINVAL
    | some (.file fin) =>
      match t fdOut with
      | none => .error .EBADF
      | some .other => .error .EINVAL
      | some (.file fout) => .ok (cfrLoop fin fout offIn offOut len)

end Cfr

/-! ## setpgid (src/api/src/imp/task/thread.rs, `sys_setpgid`) -/

namespace Setpgid

/-- A process as `sys_setpgid` sees it.  Modelled from the spec (§3, §4.8):
pid, parent pid, current group id and the session id of that group. -/
structure Process where
  pid : Nat
  parent : Option Nat
  pgid : Nat
  sid : Nat
  deriving DecidableEq, Repr

/-- The process/group world.  `groups` maps an existing pgid to the sid of
its session.  `canCreate pid` models the collaborator-defined
`create_group()` succeeding for that process, and `canMove pid pgid` the
collaborator-defined `move_to_group` predicate (spec §9 leaves their
internals unconstrained). -/
structure System where
  procs : List Process
  groups : List (Nat × Nat)
  canCreate : Nat → Bool
  canMove : Nat → Nat → Bool

/-- `get_process(pid)`.  Modelled from the spec: lookup in the process
table. -/
def getProcess (s : System) (pid : Nat) : Option Process :=
  s.procs.find? (fun p => p.pid == pid)

/-- `get_process_group(pgid)`: the sid of the group, when it exists. -/
def getGroup (s : System) (pgid : Nat) : Option Nat :=
  (s.groups.find? (fun g => g.1 == pgid)).map (·.2)

/-- Shallow embedding of `sys_setpgid` from thread.rs, with the calling
process passed explicitly (the `current()` task).  The two checks guarded
by `target_process.pid() != current_process.pid()` are modelled as a
nested decision whose error (if any) is propagated before the group
change. -/
def sys_setpgid (s : System) (caller : Process) (pid pgid : Nat) :
    Except Errno Int :=
  match (if pid = 0 then some caller else getProcess s pid) with
  | none => .error .ESRCH
  | some target =>
    let targetPgid := if pgid = 0 then target.pid else pgid
    if targetPgid = target.pgid then .ok 0
    else
      let guarded : Except Errno Unit :=
        if target.pid ≠ caller.pid then
          if !(target.parent.elim false (fun pp => pp == caller.pid)) then
            .error .ESRCH
          else if target.sid ≠ caller.sid then .error .EPERM
          else .ok ()
        else .ok ()
      match guarded with
      | .error e => .error e
      | .ok _ =>
        if targetPgid = target.pid then
          if !s.canCreate target.pid then .error .EPERM else .ok 0
        else
          match getGroup s targetPgid with
          | none => .error .EPERM
          | some gsid =>
            if gsid ≠ target.sid then .error .EPERM
            else if !s.canMove target.pid targetPgid then .error .EPERM
            else .ok 0

/-- The spec's ordered rules for `setpgid` (§4.8), written as stated:
with `P` the target process (self if `pid==0`) and `G` the target pgid
(`P.pid` if `pgid==0`): (1) `G == P.pgid` is a no-op; (2) `P` neither the
caller nor a child of the caller is `NoSuchProcess`; (3) a session
mismatch with the caller is `PermDenied`; (4) `G == P.pid` creates a new
group led by `P`, `PermDenied` on failure; (5) otherwise `G` must exist,
be in `P`'s session, and accept `P`, any failure `PermDenied`. -/
def setpgidSpecRules (s : System) (caller : Process) (pid pgid : Nat) :
    Except Errno Int :=
  match (if pid = 0 then some caller else getProcess s pid) with
  | none => .error .ESRCH
  | some target =>
    let targetPgid := if pgid = 0 then target.pid else pgid
    if targetPgid = target.pgid then .ok 0
    else if target.pid ≠ caller.pid ∧ target.parent ≠ some caller.pid then
      .error .ESRCH
    else if target.sid ≠ caller.sid then .error .EPERM
    else if targetPgid = target.pid then
      if s.canCreate target.pid then .ok 0 else .error .EPERM
    else if (getGroup s targetPgid).isNone then .error .EPERM
    else if getGroup s targetPgid ≠ some target.sid then .error .EPERM
    else if s.canMove target.pid targetPgid then .ok 0 else .error .EPERM

end Setpgid

/-! ## System V shared memory (src/api/src/imp/mm/shm.rs and
src/core/src/shm.rs) -/

namespace Shm

def IPC_PRIVATE : Int := 0
def IPC_CREAT : Int := 0o1000
def IPC_EXCL : Int := 0o2000
def SHM_RND : Int := 0o20000
def SHM_RDONLY : Int := 0o10000
def MAX_SHM_SIZE : Nat := 1 <<< 30

def alignUp4k (n : Nat) : Nat := (n + 4095) / 4096 * 4096

/-- A shared-memory segment (core/src/shm.rs `ShmSegment` plus the pieces
of its `shmid_ds` the claims touch).  `size` is the 4 KiB-aligned backing
size, `segsz` the requested `shm_segsz`. -/
structure Segment where
  key : Int
  size : Nat
  segsz : Nat
  nattch : Nat
  mode : Nat
  uid : Nat
  gid : Nat
  marked : Bool
  paddr : Nat
  deriving DecidableEq, Repr

/-- `ShmSegment::new`: aligned backing, zero attach count, unmarked.  The
physical allocation is an external collaborator; the model gives every
fresh segment the (nonzero) page address 4096. -/
def newSegment (key : Int) (size : Nat) (mode : Nat) : Segment :=
  { key := key, size := alignUp4k size, segsz := size, nattch := 0,
    mode := mode, uid := 0, gid := 0, marked := false, paddr := 4096 }

/-- `ShmSegment::validate` from core/src/shm.rs. -/
def validate (s : Segment) : Bool :=
  !(decide (s.nattch > 65536)) &&
  !(decide (s.size < s.segsz) || decide (s.size < alignUp4k s.segsz)) &&
  !(decide (s.segsz = 0) || decide (s.segsz > 1 <<< 30)) &&
  !(decide (s.size = 0) || decide (s.size > 1 <<< 30)) &&
  !(decide (s.paddr = 0))

/-- `ShmSegment::check_permissions` from core/src/shm.rs. -/
def check_permissions (s : Segment) (uid gid : Nat) (access : Nat) : Bool :=
  if uid = s.uid then decide (s.mode &&& (access <<< 6) = access <<< 6)
  else if gid = s.gid then decide (s.mode &&& (access <<< 3) = access <<< 3)
  else decide (s.mode &&& access = access)

/-- The registry (`ShmManager`): id-indexed segments, the key index and
the id allocator cursor. -/
structure Manager where
  segments : List (Int × Segment)
  keyToId : List (Int × Int)
  nextId : Int
  deriving DecidableEq, Repr

def lookupSeg (m : Manager) (id : Int) : Option Segment :=
  (m.segments.find? (fun kv => kv.1 == id)).map (·.2)

def lookupKey (m : Manager) (key : Int) : Option Int :=
  (m.keyToId.find? (fun kv => kv.1 == key)).map (·.2)

def setSeg (l : List (Int × Segment)) (id : Int) (s : Segment) :
    List (Int × Segment) :=
  match l with
  | [] => [(id, s)]
  | (k, v) :: rest =>
    if k = id then (id, s) :: rest else (k, v) :: setSeg rest id s

def dropSeg (l : List (Int × Segment)) (id : Int) : List (Int × Segment) :=
  match l with
  | [] => []
  | (k, v) :: rest => if k = id then rest else (k, v) :: dropSeg rest id

def dropKey (l : List (Int × Int)) (key : Int) : List (Int × Int) :=
  match l with
  | [] => []
  | (k, v) :: rest => if k = key then rest else (k, v) :: dropKey rest key

/-- The i32 `next_id.wrapping_add(1)` followed by the `<= 0` reset in
`ShmManager::alloc_id`. -/
def wrapInc (n : Int) : Int :=
  let m := if n = 2147483647 then -2147483648 else n + 1
  if m ≤ 0 then 1 else m

/-- The probe loop of `ShmManager::alloc_id` (at most 1000 attempts). -/
def allocIdLoop (segs : List (Int × Segment)) : Int → Nat →
    Option (Int × Int)
  | _, 0 => none
  | next, fuel + 1 =>
    let id := next
    let next' := wrapInc next
    if (segs.find? (fun kv => kv.1 == id)).isSome then
      allocIdLoop segs next' fuel
    else some (id, next')

/-- `ShmManager::alloc_id`: reject a half-full registry, then probe. -/
def alloc_id (m : Manager) : Except Errno (Int × Int) :=
  if m.segments.length ≥ 1073741823 then .error .ENOMEM
  else
    match allocIdLoop m.segments m.nextId 1000 with
    | none => .error .ENOMEM
    | some r => .ok r

/-- `ShmManager::remove`: drop the segment and, for a keyed segment, its
key-index entry. -/
def removeSeg (m : Manager) (id : Int) : Except Errno Manager :=
  match lookupSeg m id with
  | none => .error .ENOENT
  | some seg =>
    let m' := { m with segments := dropSeg m.segments id }
    if seg.key ≠ IPC_PRIVATE then
      .ok { m' with keyToId := dropKey m'.keyToId seg.key }
    else .ok m'

/-- `ShmManager::get_or_create`, driving `sys_shmget`'s main path.
Returns the id handed to the caller and the updated registry. -/
def get_or_create (m : Manager) (key : Int) (size : Nat) (flags : Int) :
    Except Errno (Int × Manager) :=
  let createFlag := Int.land flags 0o1000
  let exclFlag := Int.land flags 0o2000
  let mode := (Int.land flags 0o777).toNat
  if key = IPC_PRIVATE then do
    let (id, next') ← alloc_id m
    let seg := newSegment key size mode
    .ok (id, { m with segments := setSeg m.segments id seg, nextId := next' })
  else
    match lookupKey m key with
    | some existingId =>
      if exclFlag ≠ 0 then .error .EEXIST
      else
        match lookupSeg m existingId with
        | some seg =>
          if seg.marked then .error .ENOENT else .ok (existingId, m)
        | none => .error .ENOENT
    | none =>
      if createFlag ≠ 0 then do
        let (id, next') ← alloc_id m
        let seg := newSegment key size mode
        let m' : Manager :=
          ⟨setSeg m.segments id seg, m.keyToId ++ [(key, id)], next'⟩
        .ok (id, m')
      else .error .ENOENT

/-- Shallow embedding of `sys_shmget` from api/src/imp/mm/shm.rs. -/
def sys_shmget (m : Manager) (key : Int) (size : Nat) (flags : Int) :
    Except Errno (Int × Manager) :=
  if size > MAX_SHM_SIZE ∨ (size = 0 ∧ key ≠ IPC_PRIVATE) then .error .EINVAL
  else get_or_create m key size flags

/-- `validate_segment` from api/src/imp/mm/shm.rs: deletion mark first
(`EIDRM`), then consistency (`EINVAL`), then mode bits (`EACCES`). -/
def validate_segment (s : Segment) (shmflg : Int) : Except Errno Unit :=
  if s.marked then .error .EIDRM
  else if !validate s then .error .EINVAL
  else
    let access : Nat := if Int.land shmflg SHM_RDONLY ≠ 0 then 0o4 else 0o6
    if !check_permissions s 0 0 access then .error .EACCES
    else .ok ()

/-- The argument-and-segment checking prefix of `sys_shmat` (everything
before address selection and mapping, which involve only the external
address-space collaborator): negative id, hint alignment, registry
lookup, then `validate_segment`. -/
def shmatCheck (m : Manager) (shmid : Int) (shmaddr : Nat) (shmflg : Int) :
    Except Errno Segment :=
  if shmid < 0 then .error .EINVAL
  else if Int.land shmflg SHM_RND = 0 ∧ shmaddr ≠ 0 ∧ shmaddr % 4096 ≠ 0 then
    .error .EINVAL
  else
    match lookupSeg m shmid with
    | none => .error .ENOENT
    | some seg =>
      match validate_segment seg shmflg with
      | .error e => .error e
      | .ok _ => .ok seg

/-- `ShmSegment::dec_attach`: saturating decrement. -/
def decAttach (s : Segment) : Segment :=
  if s.nattch > 0 then { s with nattch := s.nattch - 1 } else s

/-- A process's attachment table (`ProcessShmData`): attached virtual
address ↦ segment id. -/
structure ProcShm where
  attached : List (Nat × Int)
  deriving DecidableEq, Repr

def lookupAttach (p : ProcShm) (addr : Nat) : Option Int :=
  (p.attached.find? (fun kv => kv.1 == addr)).map (·.2)

def dropAttach (l : List (Nat × Int)) (addr : Nat) : List (Nat × Int) :=
  match l with
  | [] => []
  | (k, v) :: rest => if k = addr then rest else (k, v) :: dropAttach rest addr

/-- Shallow embedding of `sys_shmdt` from api/src/imp/mm/shm.rs: detach by
exact address (`EINVAL` if none), unmap (external, modelled as
succeeding), decrement the attach count, and remove the segment from the
registry exactly when it is marked for deletion and the count reached
zero.  (The shared `Arc` metadata is carried in the registry; a segment
already gone from the registry leaves it unchanged.) -/
def sys_shmdt (m : Manager) (p : ProcShm) (addr : Nat) :
    Except Errno Unit × Manager × ProcShm :=
  match lookupAttach p addr with
  | none => (.error .EINVAL, m, p)
  | some id =>
    let p' : ProcShm := ⟨dropAttach p.attached addr⟩
    match lookupSeg m id with
    | none => (.ok (), m, p')
    | some seg =>
      let seg' := decAttach seg
      if seg'.marked ∧ seg'.nattch = 0 then
        match removeSeg { m with segments := setSeg m.segments id seg' } id with
        | .ok m' => (.ok (), m', p')
        | .error e => (.error e, m, p')
      else (.ok (), { m with segments := setSeg m.segments id seg' }, p')

/-- Shallow embedding of the `IPC_RMID` arm of `sys_shmctl`: mark the
segment for deletion, and remove it from the registry immediately iff its
attach count is already zero. -/
def sys_shmctl_rmid (m : Manager) (shmid : Int) :
    Except Errno Unit × Manager :=
  match lookupSeg m shmid with
  | none => (.error .ENOENT, m)
  | some seg =>
    let seg' := { seg with marked := true }
    let m1 := { m with segments := setSeg m.segments shmid seg' }
    if seg'.nattch = 0 then
      match removeSeg m1 shmid with
      | .ok m' => (.ok (), m')
      | .error e => (.error e, m1)
    else (.ok (), m1)

end Shm

/-! ## execve (src/api/src/imp/task/execve.rs and src/core/src/mm.rs) -/

namespace Execve

/-- Rust `char::is_ascii_whitespace`. -/
def isWs (c : Char) : Bool :=
  c = ' ' || c = '\t' || c = '\n' || c = '\r' || c = '\x0c'

/-- Rust `str::trim_ascii`. -/
def trimAscii (l : List Char) : List Char :=
  ((l.dropWhile isWs).reverse.dropWhile isWs).reverse

/-- Rust `str::splitn(2, is_ascii_whitespace)`: everything before the
first whitespace character, and (when one exists) everything after it. -/
def splitn2Ws (l : List Char) : List (List Char) :=
  let first := l.takeWhile (fun c => !isWs c)
  match l.drop first.length with
  | [] => [first]
  | _ :: tail => [first, tail]

/-- The shebang line of `load_user_app`: bytes 2 .. min(len,256) of the
file, cut at the first newline. -/
def shebangLine (data : List Char) : List Char :=
  ((data.take (min data.length 256)).drop 2).takeWhile (fun c => c ≠ '\n')

/-- The well-known dynamic-linker paths `load_user_app` rewrites to the
musl libc (the five-way `if` in src/core/src/mm.rs). -/
def remapInterp (p : String) : String :=
  if p = "/lib/ld-linux-riscv64-lp64.so.1"
      ∨ p = "/lib/ld-linux-riscv64-lp64d.so.1"
      ∨ p = "/lib64/ld-linux-loongarch-lp64d.so.1"
      ∨ p = "/lib64/ld-linux-x86-64.so.2"
      ∨ p = "/lib/ld-linux-aarch64.so.1"
  then "/musl/lib/libc.so" else p

/-- The collaborator world `execve` runs against.  Modelled from the spec:
`fs` is the VFS (`axfs::api::read`), `isElf` the external ELF parser's
acceptance (`ElfFile::new(..).is_ok()`), `elfInterpSeg` the `PT_INTERP`
segment of a parsed ELF (`none` = no such segment, `some none` = segment
present but its path malformed, `some (some p)` = its canonicalized
path), and `elfCommit` the final mapping step (`map_elf` plus the stack,
heap and stack-image maps): the list of regions it adds to the address
space with the entry point and user stack pointer, or `none` on failure. -/
structure ExecWorld where
  fs : String → Option (List Char)
  isElf : List Char → Bool
  elfInterpSeg : List Char → Option (Option String)
  elfCommit : List Char → List String → List String →
    Option (List Nat × Nat × Nat)

/-- Shallow embedding of `load_user_app` from src/core/src/mm.rs, acting
on an address space modelled as a list of mapped-region ids.  The Rust
function recurses unboundedly through shebang and `PT_INTERP`
indirections; `fuel` bounds that recursion in the model (`none` = any
failure). -/
def loadUserApp (w : ExecWorld) (asp : List Nat) :
    String → List String → List String → Nat →
    Option (List Nat × Nat × Nat)
  | _, _, _, 0 => none
  | path, args, envs, fuel + 1 =>
    if args.isEmpty then none
    else
      match w.fs path with
      | none => none
      | some data =>
        if data.take 2 = ['#', '!'] then
          let parts := (splitn2Ws (shebangLine data)).map
            (fun p => String.mk (trimAscii p))
          let newArgs := parts ++ args
          loadUserApp w asp (newArgs.headD "") newArgs envs fuel
        else if !w.isElf data then none
        else
          match w.elfInterpSeg data with
          | some none => none
          | some (some interpPath) =>
            let ip := remapInterp interpPath
            loadUserApp w asp ip (ip :: args) envs fuel
          | none =>
            (w.elfCommit data args envs).map
              (fun r => (asp ++ r.1, r.2.1, r.2.2))

/-- The observable task state `execve` may touch: the address space
(as mapped-region ids), the task name, the recorded exe path, the saved
trap frame's ip/sp, and the thread count consulted by the multi-thread
guard. -/
structure TaskState where
  aspace : List Nat
  name : String
  exePath : String
  ip : Nat
  sp : Nat
  threads : Nat
  deriving DecidableEq, Repr

/-- The region id of the signal-trampoline mapping installed right after
`unmap_user_areas`. -/
def trampolineRegion : Nat := 999

/-- `path.rsplit_once('/')`: the basename used for the task name. -/
def basename (p : String) : String :=
  if p.toList.contains '/' then
    String.mk ((p.toList.reverse.takeWhile (fun c => c ≠ '/')).reverse)
  else p

/-- Shallow embedding of `sys_execve` from execve.rs (with the argument
strings already lifted from user memory): the multi-thread guard, the
read-and-validate step, then the commit — unmap all user areas, map the
trampoline, run `load_user_app`, and on success rewrite name, exe path
and trap frame.  A `load_user_app` failure maps to `ENOENT` and leaves
the already-torn-down address space in place. -/
def sys_execve (w : ExecWorld) (st : TaskState) (path : String)
    (args envs : List String) (fuel : Nat) : Except Errno Int × TaskState :=
  if st.threads > 1 then (.error .EAGAIN, st)
  else
    match w.fs path with
    | none => (.error .ENOENT, st)
    | some data =>
      if !(data.take 2 = ['#', '!'] || w.isElf data) then
        (.error .ENOEXEC, st)
      else
        let asp1 : List Nat := [trampolineRegion]
        match loadUserApp w asp1 path args envs fuel with
        | none => (.error .ENOENT, { st with aspace := asp1 })
        | some r =>
          let st' : TaskState :=
            ⟨r.1, basename path, path, r.2.1, r.2.2, st.threads⟩
          (.ok 0, st')

end Execve

/-! ## Concrete worlds and states used by witnesses and counterexamples -/

/-- A two-fd world for concrete epoll tests: fd 3 polls ok, everything
else is dead. -/
def epollTestWorld : Epoll.FdWorld :=
  fun fd => if fd = 3 then some (.ok true false) else none

/-- A world for the C10 witness: fd 3 is readable and writable, fd 4
fails to poll, everything else is dead. -/
def epollWaitWorld : Epoll.FdWorld :=
  fun fd =>
    if fd = 3 then some (.ok true true)
    else if fd = 4 then some .err else none

/-- A concrete two-process system (pid 1 the session leader, pid 2 its
child) for the setpgid witness. -/
def setpgidTestSystem : Setpgid.System :=
  { procs := [⟨1, none, 1, 1⟩, ⟨2, some 1, 1, 1⟩],
    groups := [(1, 1)],
    canCreate := fun _ => true,
    canMove := fun _ _ => true }

/-- Fd table for the copy_file_range witness: fd 3 is a 100-byte file at
position 10, fd 4 a 50-byte file at position 0. -/
def cfrTestTable : Int → Option Cfr.CfrObj :=
  fun fd =>
    if fd = 3 then some (.file ⟨100, 10⟩)
    else if fd = 4 then some (.file ⟨50, 0⟩) else none

/-- Fd table for the splice counterexample and witness: fd 5 a readable,
writable, empty pipe; fd 6 a 10-byte file; fd 7 a non-readable pipe;
fd 8 dead. -/
def spliceTestTable : Splice.FdTable :=
  fun fd =>
    if fd = 5 then some (.pipe ⟨true, true, 0, false⟩)
    else if fd = 6 then some (.file ⟨10, 0⟩)
    else if fd = 7 then some (.pipe ⟨false, true, 0, false⟩)
    else if fd = 9 then some (.pipe ⟨true, false, 0, false⟩)
    else none

/-- A shared-memory segment with key 42 and one live attachment, and the
registry holding it, for the C3 scenario. -/
def shmSeg1 : Shm.Segment :=
  { key := 42, size := 4096, segsz := 4096, nattch := 1, mode := 0o600,
    uid := 0, gid := 0, marked := false, paddr := 4096 }

def shmM0 : Shm.Manager := ⟨[(1, shmSeg1)], [(42, 1)], 2⟩

/-- The registry after `IPC_RMID` on the attached segment (marked, still
present), plus variants with zero and two attachments, for the C3
witness. -/
def shmM1 : Shm.Manager :=
  ⟨[(1, { shmSeg1 with marked := true })], [(42, 1)], 2⟩

def shmM2 : Shm.Manager :=
  ⟨[(1, { shmSeg1 with nattch := 0 })], [(42, 1)], 2⟩

def shmM3 : Shm.Manager :=
  ⟨[(1, { shmSeg1 with marked := true, nattch := 2 })], [(42, 1)], 2⟩

/-- One attachment of segment 1 at address 0x10000. -/
def shmP1 : Shm.ProcShm := ⟨[(65536, 1)]⟩

/-- World for the execve counterexample: `/bin/s` is a shebang script
whose interpreter `/bin/nosuch` does not exist; nothing is a valid ELF. -/
def execWorld : Execve.ExecWorld :=
  { fs := fun p => if p = "/bin/s" then some ("#!/bin/nosuch".toList)
      else none,
    isElf := fun _ => false,
    elfInterpSeg := fun _ => none,
    elfCommit := fun _ _ _ => none }

/-- A single-threaded task with one mapped user region (id 7). -/
def execSt0 : Execve.TaskState := ⟨[7], "init", "/init", 0, 0, 1⟩

/-! ## Claim theorems -/

/-- C9: for every ioctl op code outside {TIOCGPGRP, TIOCSPGRP, TCGETS,
TCSETS}, `sys_ioctl` returns success (0) rather than an error, touching
neither kernel state nor user memory; moreover `TIOCSPGRP` (with a
readable pgid pointer) and `TCSETS` also return 0 without changing any
kernel state — the pointed-to value is discarded (the result does not
depend on it). -/
theorem c9_ioctl_stubs :
    (∀ st op argp, op ≠ Ioctl.TIOCGPGRP → op ≠ Ioctl.TIOCSPGRP →
      op ≠ Ioctl.TCGETS → op ≠ Ioctl.TCSETS →
      Ioctl.sys_ioctl st op argp = (.ok 0, st, .nothing)) ∧
    (∀ st v, Ioctl.sys_ioctl st Ioctl.TIOCSPGRP (some v) =
      (.ok 0, st, .nothing)) ∧
    (∀ st argp, Ioctl.sys_ioctl st Ioctl.TCSETS argp =
      (.ok 0, st, .nothing)) := by
  refine ⟨?_, ?_, ?_⟩
  · intro st op argp h1 h2 h3 h4
    simp [Ioctl.sys_ioctl, h1, h2, h3, h4]
  · intro st v
    simp [Ioctl.sys_ioctl, Ioctl.TIOCSPGRP, Ioctl.TIOCGPGRP]
  · intro st argp
    simp [Ioctl.sys_ioctl, Ioctl.TCSETS, Ioctl.TIOCGPGRP, Ioctl.TIOCSPGRP,
      Ioctl.TCGETS]

/-- Witness for C9: the theorem applied at concrete inputs (op 1234 with a
null pointer; TIOCSPGRP with pointee 7; TCSETS with a null pointer). -/
theorem c9_ioctl_stubs_witness :
    Ioctl.sys_ioctl ⟨5⟩ 1234 none = (.ok 0, ⟨5⟩, .nothing) ∧
    Ioctl.sys_ioctl ⟨5⟩ Ioctl.TIOCSPGRP (some 7) = (.ok 0, ⟨5⟩, .nothing) ∧
    Ioctl.sys_ioctl ⟨5⟩ Ioctl.TCSETS none = (.ok 0, ⟨5⟩, .nothing) :=
  ⟨c9_ioctl_stubs.1 ⟨5⟩ 1234 none (by decide) (by decide) (by decide)
      (by decide),
    c9_ioctl_stubs.2.1 ⟨5⟩ 7, c9_ioctl_stubs.2.2 ⟨5⟩ none⟩

/-- C5: on a valid epoll instance, `EPOLL_CTL_ADD` returns `EEXIST` when
the target fd is already in the interest map and otherwise inserts it;
`EPOLL_CTL_MOD` and `EPOLL_CTL_DEL` return `ENOENT` when the fd is
absent; a null event pointer is accepted for `DEL`; an unrecognized op
(with a readable event pointer) returns `EINVAL` when the target fd is
live; and whenever the target fd is not a live file-like the call returns
`EBADF` regardless of op. -/
theorem c5_epoll_ctl :
    (∀ (world : Epoll.FdWorld) l fd ev o, world fd = some o →
      Epoll.containsFd l fd = true →
      Epoll.sys_epoll_ctl world l Epoll.EPOLL_CTL_ADD fd (some ev) =
        (.error .EEXIST, l)) ∧
    (∀ (world : Epoll.FdWorld) l fd ev o, world fd = some o →
      Epoll.containsFd l fd = false →
      Epoll.sys_epoll_ctl world l Epoll.EPOLL_CTL_ADD fd (some ev) =
        (.ok 0, Epoll.insertFd l fd ev)) ∧
    (∀ (world : Epoll.FdWorld) l fd ev o, world fd = some o →
      Epoll.containsFd l fd = false →
      Epoll.sys_epoll_ctl world l Epoll.EPOLL_CTL_MOD fd (some ev) =
        (.error .ENOENT, l) ∧
      Epoll.sys_epoll_ctl world l Epoll.EPOLL_CTL_DEL fd (some ev) =
        (.error .ENOENT, l)) ∧
    (∀ (world : Epoll.FdWorld) l fd o, world fd = some o →
      Epoll.containsFd l fd = true →
      Epoll.sys_epoll_ctl world l Epoll.EPOLL_CTL_DEL fd none =
        (.ok 0, Epoll.removeFd l fd)) ∧
    (∀ (world : Epoll.FdWorld) l fd ev o op, world fd = some o →
      op ≠ Epoll.EPOLL_CTL_ADD → op ≠ Epoll.EPOLL_CTL_MOD →
      op ≠ Epoll.EPOLL_CTL_DEL →
      Epoll.sys_epoll_ctl world l op fd (some ev) = (.error .EINVAL, l)) ∧
    (∀ (world : Epoll.FdWorld) l fd op ev, world fd = none →
      (op = Epoll.EPOLL_CTL_DEL ∨ ev ≠ none) →
      Epoll.sys_epoll_ctl world l op fd ev = (.error .EBADF, l)) := by
  refine ⟨?_, ?_, ?_, ?_, ?_, ?_⟩
  · intro world l fd ev o ho hc
    simp [Epoll.sys_epoll_ctl, Epoll.control, Epoll.EPOLL_CTL_ADD,
      Epoll.EPOLL_CTL_DEL, ho, hc]
  · intro world l fd ev o ho hc
    simp [Epoll.sys_epoll_ctl, Epoll.control, Epoll.EPOLL_CTL_ADD,
      Epoll.EPOLL_CTL_DEL, ho, hc]
  · intro world l fd ev o ho hc
    constructor
    · simp [Epoll.sys_epoll_ctl, Epoll.control, Epoll.EPOLL_CTL_ADD,
        Epoll.EPOLL_CTL_MOD, Epoll.EPOLL_CTL_DEL, ho, hc]
    · simp [Epoll.sys_epoll_ctl, Epoll.control, Epoll.EPOLL_CTL_ADD,
        Epoll.EPOLL_CTL_MOD, Epoll.EPOLL_CTL_DEL, ho, hc]
  · intro world l fd o ho hc
    simp [Epoll.sys_epoll_ctl, Epoll.control, Epoll.EPOLL_CTL_ADD,
      Epoll.EPOLL_CTL_MOD, Epoll.EPOLL_CTL_DEL, ho, hc]
  · intro world l fd ev o op ho h1 h2 h3
    simp [Epoll.sys_epoll_ctl, Epoll.control, h1, h2, h3, ho]
  · intro world l fd op ev ho hok
    rcases hok with h | h
    · subst h
      cases ev <;>
        simp [Epoll.sys_epoll_ctl, Epoll.control, Epoll.EPOLL_CTL_DEL, ho]
    · match ev, h with
      | some e, _ =>
        by_cases hdel : op = Epoll.EPOLL_CTL_DEL <;>
          simp [Epoll.sys_epoll_ctl, Epoll.control, hdel, ho]

/-- Witness for C5: the theorem applied in a world where fd 3 is live and
fd 9 is dead, on the one-entry interest map {3 ↦ (EPOLLIN, 77)}. -/
theorem c5_epoll_ctl_witness :
    Epoll.sys_epoll_ctl epollTestWorld [(3, ⟨Epoll.EPOLLIN, 77⟩)]
        Epoll.EPOLL_CTL_ADD 3 (some ⟨Epoll.EPOLLIN, 88⟩) =
      (.error .EEXIST, [(3, ⟨Epoll.EPOLLIN, 77⟩)]) ∧
    Epoll.sys_epoll_ctl epollTestWorld [] Epoll.EPOLL_CTL_ADD 3
        (some ⟨Epoll.EPOLLIN, 88⟩) =
      (.ok 0, [(3, ⟨Epoll.EPOLLIN, 88⟩)]) ∧
    Epoll.sys_epoll_ctl epollTestWorld [] Epoll.EPOLL_CTL_MOD 3
        (some ⟨Epoll.EPOLLIN, 88⟩) = (.error .ENOENT, []) ∧
    Epoll.sys_epoll_ctl epollTestWorld [(3, ⟨Epoll.EPOLLIN, 77⟩)]
        Epoll.EPOLL_CTL_DEL 3 none = (.ok 0, []) ∧
    Epoll.sys_epoll_ctl epollTestWorld [] 42 3
        (some ⟨Epoll.EPOLLIN, 88⟩) = (.error .EINVAL, []) ∧
    Epoll.sys_epoll_ctl epollTestWorld [] Epoll.EPOLL_CTL_ADD 9
        (some ⟨Epoll.EPOLLIN, 88⟩) = (.error .EBADF, []) := by
  have h3 : epollTestWorld 3 = some (.ok true false) := by
    simp [epollTestWorld]
  have h9 : epollTestWorld 9 = none := by simp [epollTestWorld]
  refine ⟨c5_epoll_ctl.1 _ _ _ _ _ h3 (by decide),
    c5_epoll_ctl.2.1 _ _ _ _ _ h3 (by decide),
    (c5_epoll_ctl.2.2.1 _ _ _ _ _ h3 (by decide)).1,
    c5_epoll_ctl.2.2.2.1 _ _ _ _ h3 (by decide),
    c5_epoll_ctl.2.2.2.2.1 _ _ _ _ _ _ h3 (by decide) (by decide)
      (by decide),
    c5_epoll_ctl.2.2.2.2.2 _ _ _ _ _ h9 (.inr (by simp))⟩

/-- The emit-with-capacity loop of `poll_all` equals `filterMap` of the
per-entry sample truncated to the remaining capacity. -/
theorem pollAllAux_eq (world : Epoll.FdWorld) (l : Epoll.Interest) :
    ∀ (acc : List Epoll.OutEvent) (cap : Nat), acc.length ≤ cap →
      Epoll.pollAllAux world l cap acc =
        acc ++ (l.filterMap fun kv =>
          Epoll.sampleEntry world kv.1 kv.2).take (cap - acc.length) := by
  induction l with
  | nil => intro acc cap h; simp [Epoll.pollAllAux]
  | cons kv rest ih =>
    intro acc cap h
    obtain ⟨fd, ev⟩ := kv
    simp only [Epoll.pollAllAux]
    by_cases hfull : cap ≤ acc.length
    · rw [if_pos hfull]
      have hz : cap - acc.length = 0 := by omega
      simp [hz]
    · rw [if_neg hfull]
      cases hse : Epoll.sampleEntry world fd ev with
      | none =>
        rw [ih acc cap h]
        simp [List.filterMap_cons, hse]
      | some out =>
        show Epoll.pollAllAux world rest cap (acc ++ [out]) = _
        rw [ih (acc ++ [out]) cap
          (by simp only [List.length_append, List.length_cons,
            List.length_nil]; omega)]
        have hsplit : cap - acc.length = (cap - (acc.length + 1)) + 1 := by
          omega
        simp only [List.filterMap_cons, hse, List.length_append,
          List.length_cons, List.length_nil, hsplit, List.take_succ_cons,
          List.append_assoc, List.singleton_append, Nat.add_zero]

/-- C10: in one `epoll_wait` sampling pass each watched fd contributes at
most one event — the output array is the per-entry sample of the interest
map, truncated to `maxevents` (so its length is bounded by both) — and
the per-entry sample gives `EPOLLIN` priority: a readable fd subscribed
to `EPOLLIN` reports exactly `EPOLLIN` (even when also writable and
subscribed to `EPOLLOUT`); `EPOLLOUT` is reported only when the readable
branch does not fire (fd not readable, or `EPOLLIN` not subscribed); and
an fd whose poll fails yields a single `EPOLLERR` event iff `EPOLLERR`
was subscribed. -/
theorem c10_epoll_wait_priority :
    (∀ (world : Epoll.FdWorld) (l : Epoll.Interest) (cap : Nat),
      Epoll.poll_all world l cap =
        (l.filterMap fun kv => Epoll.sampleEntry world kv.1 kv.2).take cap ∧
      (Epoll.poll_all world l cap).length ≤ cap ∧
      (Epoll.poll_all world l cap).length ≤ l.length) ∧
    (∀ (world : Epoll.FdWorld) fd ev w, world fd = some (.ok true w) →
      ev.events &&& Epoll.EPOLLIN ≠ 0 →
      Epoll.sampleEntry world fd ev = some ⟨Epoll.EPOLLIN, ev.data⟩) ∧
    (∀ (world : Epoll.FdWorld) fd ev, world fd = some (.ok false true) →
      ev.events &&& Epoll.EPOLLOUT ≠ 0 →
      Epoll.sampleEntry world fd ev = some ⟨Epoll.EPOLLOUT, ev.data⟩) ∧
    (∀ (world : Epoll.FdWorld) fd ev, world fd = some (.ok true true) →
      ev.events &&& Epoll.EPOLLIN = 0 → ev.events &&& Epoll.EPOLLOUT ≠ 0 →
      Epoll.sampleEntry world fd ev = some ⟨Epoll.EPOLLOUT, ev.data⟩) ∧
    (∀ (world : Epoll.FdWorld) fd ev,
      world fd = none ∨ world fd = some .err →
      (ev.events &&& Epoll.EPOLLERR ≠ 0 →
        Epoll.sampleEntry world fd ev = some ⟨Epoll.EPOLLERR, ev.data⟩) ∧
      (ev.events &&& Epoll.EPOLLERR = 0 →
        Epoll.sampleEntry world fd ev = none)) := by
  refine ⟨?_, ?_, ?_, ?_, ?_⟩
  · intro world l cap
    have hpoll : Epoll.poll_all world l cap =
        (l.filterMap fun kv => Epoll.sampleEntry world kv.1 kv.2).take cap := by
      have h := pollAllAux_eq world l [] cap (by simp)
      simpa using h
    refine ⟨hpoll, ?_, ?_⟩
    · rw [hpoll]
      simp only [List.length_take]
      omega
    · rw [hpoll]
      have h1 : (l.filterMap fun kv =>
          Epoll.sampleEntry world kv.1 kv.2).length ≤ l.length :=
        List.length_filterMap_le _ _
      simp only [List.length_take]
      omega
  · intro world fd ev w ho hin
    simp [Epoll.sampleEntry, ho, hin]
  · intro world fd ev ho hout
    simp [Epoll.sampleEntry, ho, hout]
  · intro world fd ev ho hin hout
    simp [Epoll.sampleEntry, ho, hin, hout]
  · intro world fd ev ho
    rcases ho with h | h <;>
      exact ⟨fun herr => by simp [Epoll.sampleEntry, h, herr],
        fun herr => by simp [Epoll.sampleEntry, h, herr]⟩

/-- Witness for C10: the theorem applied to a watcher of fd 3 subscribed
to both `EPOLLIN` and `EPOLLOUT` (mask 5) while fd 3 is readable and
writable, and to a watcher of failing fd 4 subscribed to `EPOLLERR`. -/
theorem c10_epoll_wait_priority_witness :
    Epoll.sampleEntry epollWaitWorld 3 ⟨5, 7⟩ =
      some ⟨Epoll.EPOLLIN, 7⟩ ∧
    Epoll.sampleEntry epollWaitWorld 4 ⟨8, 9⟩ =
      some ⟨Epoll.EPOLLERR, 9⟩ ∧
    Epoll.poll_all epollWaitWorld [(3, ⟨5, 7⟩), (4, ⟨8, 9⟩)] 8 =
      ([(3, (⟨5, 7⟩ : Epoll.EpollEvent)),
        (4, ⟨8, 9⟩)].filterMap fun kv =>
        Epoll.sampleEntry epollWaitWorld kv.1 kv.2).take 8 :=
  ⟨c10_epoll_wait_priority.2.1 epollWaitWorld 3 ⟨5, 7⟩ true
      (by simp [epollWaitWorld]) (by decide),
    (c10_epoll_wait_priority.2.2.2.2 epollWaitWorld 4 ⟨8, 9⟩
      (.inr (by simp [epollWaitWorld]))).1 (by decide),
    (c10_epoll_wait_priority.1 epollWaitWorld
      [(3, ⟨5, 7⟩), (4, ⟨8, 9⟩)] 8).1⟩

/-- The emit loop of `sys_getdents64` accounts every byte it writes
(final offset = initial offset + total record bytes of what it emitted)
and never drops an entry (emitted ++ carry ++ leftover = input stream). -/
theorem packLoop_spec (len : Nat) :
    ∀ (pending : List Getdents.DirEntry) (offset : Nat),
      (Getdents.packLoop len offset pending).1 =
        offset +
          Getdents.totalBytes (Getdents.packLoop len offset pending).2.1 ∧
      (Getdents.packLoop len offset pending).2.1 ++
        ((Getdents.packLoop len offset pending).2.2.1.elim []
          (fun e => [e])) ++
        (Getdents.packLoop len offset pending).2.2.2 = pending := by
  intro pending
  induction pending with
  | nil =>
    intro offset
    simp [Getdents.packLoop, Getdents.totalBytes]
  | cons e rest ih =>
    intro offset
    by_cases hf : Getdents.fits len offset e
    · have h := ih (offset + Getdents.reclen e)
      simp only [Getdents.packLoop, hf, if_true]
      refine ⟨?_, ?_⟩
      · simp only [Getdents.totalBytes, List.map_cons, List.sum_cons]
        have h1 := h.1
        simp only [Getdents.totalBytes] at h1
        omega
      · simpa using h.2
    · simp only [Getdents.packLoop, hf, if_false]
      simp [Getdents.totalBytes]

/-- C2: `sys_getdents64` on a held-over entry that does not fit fails with
`EINVAL`, restoring the carry slot, consuming nothing and writing no
bytes; when the carry is empty and the directory's first entry does not
fit, it fails with `EINVAL` leaving that entry in the carry slot (zero
bytes written); every successful call returns exactly the total record
bytes of the entries it emitted; and at end of directory (no carry, no
entries) it returns 0. -/
theorem c2_getdents64 :
    (∀ (st : Getdents.DirState) len ent, st.carry = some ent →
      len < Getdents.reclen ent →
      Getdents.sys_getdents64 st len = (.error .EINVAL, [], st)) ∧
    (∀ (st : Getdents.DirState) len e rest, st.carry = none →
      st.pending = e :: rest → len < Getdents.reclen e →
      Getdents.sys_getdents64 st len =
        (.error .EINVAL, [], ⟨some e, rest⟩)) ∧
    (∀ (st : Getdents.DirState) len n em st',
      Getdents.sys_getdents64 st len = (.ok n, em, st') →
      n = Getdents.totalBytes em) ∧
    (∀ len, Getdents.sys_getdents64 ⟨none, []⟩ len =
      (.ok 0, [], ⟨none, []⟩)) := by
  refine ⟨?_, ?_, ?_, ?_⟩
  · intro st len ent hc hlen
    obtain ⟨c, pending⟩ := st
    simp only at hc
    subst hc
    have hf : Getdents.fits len 0 ent = false := by
      simp only [Getdents.fits, Nat.sub_zero, decide_eq_false_iff_not]
      omega
    simp [Getdents.sys_getdents64, hf]
  · intro st len e rest hc hp hlen
    obtain ⟨c, pending⟩ := st
    simp only at hc hp
    subst hc
    subst hp
    have hf : Getdents.fits len 0 e = false := by
      simp only [Getdents.fits, Nat.sub_zero, decide_eq_false_iff_not]
      omega
    simp [Getdents.sys_getdents64, Getdents.packLoop, hf]
  · intro st len n em st' hok
    obtain ⟨c, pending⟩ := st
    cases c with
    | none =>
      have hs := packLoop_spec len pending 0
      simp only [Getdents.sys_getdents64] at hok
      by_cases hcond : ((Getdents.packLoop len 0 pending).2.2.1.isSome &&
          (Getdents.packLoop len 0 pending).1 == 0) = true
      · rw [if_pos hcond] at hok
        exact absurd (congrArg Prod.fst hok) (by simp)
      · rw [if_neg hcond] at hok
        have h1 : n = (Getdents.packLoop len 0 pending).1 := by
          have := congrArg Prod.fst hok
          simpa using this.symm
        have h2 : em = (Getdents.packLoop len 0 pending).2.1 := by
          have := congrArg (fun x => x.2.1) hok
          simpa using this.symm
        rw [h1, h2, hs.1]
        omega
    | some ent =>
      simp only [Getdents.sys_getdents64] at hok
      by_cases hf : Getdents.fits len 0 ent
      · rw [if_pos hf] at hok
        have hs := packLoop_spec len pending (Getdents.reclen ent)
        by_cases hcond :
            ((Getdents.packLoop len (Getdents.reclen ent) pending).2.2.1.isSome &&
            (Getdents.packLoop len (Getdents.reclen ent) pending).1 == 0) = true
        · rw [if_pos hcond] at hok
          exact absurd (congrArg Prod.fst hok) (by simp)
        · rw [if_neg hcond] at hok
          have h1 : n = (Getdents.packLoop len (Getdents.reclen ent) pending).1 := by
            have := congrArg Prod.fst hok
            simpa using this.symm
          have h2 : em =
              ent :: (Getdents.packLoop len (Getdents.reclen ent) pending).2.1 := by
            have := congrArg (fun x => x.2.1) hok
            simpa using this.symm
          rw [h1, h2, hs.1]
          simp [Getdents.totalBytes]
      · rw [if_neg hf] at hok
        exact absurd (congrArg Prod.fst hok) (by simp)
  · intro len
    simp [Getdents.sys_getdents64, Getdents.packLoop]

/-- Witness for C2, on records of 24 bytes each (name length 1): a
too-small buffer with a held-over entry fails restoring the carry; a
too-small buffer on a fresh directory fails parking the first entry in
the carry; a large-enough buffer emits both entries and returns 48; end
of directory returns 0. -/
theorem c2_getdents64_witness :
    Getdents.sys_getdents64 ⟨some ⟨1, 8⟩, [⟨1, 8⟩]⟩ 10 =
      (.error .EINVAL, [], ⟨some ⟨1, 8⟩, [⟨1, 8⟩]⟩) ∧
    Getdents.sys_getdents64 ⟨none, [⟨1, 8⟩, ⟨2, 8⟩]⟩ 10 =
      (.error .EINVAL, [], ⟨some ⟨1, 8⟩, [⟨2, 8⟩]⟩) ∧
    (48 : Nat) = Getdents.totalBytes [⟨1, 8⟩, ⟨2, 8⟩] ∧
    Getdents.sys_getdents64 ⟨none, []⟩ 10 = (.ok 0, [], ⟨none, []⟩) :=
  ⟨c2_getdents64.1 ⟨some ⟨1, 8⟩, [⟨1, 8⟩]⟩ 10 ⟨1, 8⟩ rfl (by decide),
    c2_getdents64.2.1 ⟨none, [⟨1, 8⟩, ⟨2, 8⟩]⟩ 10 ⟨1, 8⟩ [⟨2, 8⟩] rfl rfl
      (by decide),
    c2_getdents64.2.2.1 ⟨none, [⟨1, 8⟩, ⟨2, 8⟩]⟩ 100 48 [⟨1, 8⟩, ⟨2, 8⟩]
      ⟨none, []⟩ (by rfl),
    c2_getdents64.2.2.2 10⟩

/-- A not-ready fd leaves the sampling accumulator untouched. -/
theorem sampleFd_notReady (world : Epoll.FdWorld) (rs ws es : Select.FdSet)
    (fd : Nat) (h : Select.notReady world rs ws es fd)
    (acc : Select.PassResult) :
    Select.sampleFd world rs ws es acc fd = acc := by
  unfold Select.sampleFd
  cases hw : world fd with
  | none =>
    have hes : es fd = false := by
      simp only [Select.notReady, hw] at h
      simpa using h
    simp [hes]
  | some o =>
    cases o with
    | err =>
      have hes : es fd = false := by
        simp only [Select.notReady, hw] at h
        simpa using h
      simp [hes]
    | ok r w =>
      simp only [Select.notReady, hw] at h
      have h1 : (r && rs fd) = false := by
        rcases h with ⟨ha, hb⟩
        cases r <;> cases hrs : rs fd <;> simp_all
      have h2 : (w && ws fd) = false := by
        rcases h with ⟨ha, hb⟩
        cases w <;> cases hws : ws fd <;> simp_all
      simp [h1, h2]

/-- Folding the sampler over fds none of which is ready returns the
accumulator unchanged. -/
theorem foldl_sampleFd_id (world : Epoll.FdWorld)
    (rs ws es : Select.FdSet) :
    ∀ (l : List Nat) (acc : Select.PassResult),
      (∀ fd ∈ l, Select.notReady world rs ws es fd) →
      l.foldl (Select.sampleFd world rs ws es) acc = acc := by
  intro l
  induction l with
  | nil => intro acc h; simp
  | cons x xs ih =>
    intro acc h
    simp only [List.foldl_cons]
    rw [sampleFd_notReady world rs ws es x (h x (by simp)) acc]
    exact ih acc (fun fd hfd => h fd (by simp [hfd]))

/-- One sampling step never sets an output bit for an fd that is in none
of the three (masked) input sets. -/
theorem sampleFd_zero (world : Epoll.FdWorld) (rs ws es : Select.FdSet)
    (acc : Select.PassResult) (fd0 fd : Nat)
    (hr : rs fd = false) (hw : ws fd = false) (he : es fd = false)
    (h : acc.rOut fd = false ∧ acc.wOut fd = false ∧ acc.eOut fd = false) :
    (Select.sampleFd world rs ws es acc fd0).rOut fd = false ∧
    (Select.sampleFd world rs ws es acc fd0).wOut fd = false ∧
    (Select.sampleFd world rs ws es acc fd0).eOut fd = false := by
  unfold Select.sampleFd
  by_cases hcond : (rs fd0 || ws fd0 || es fd0) = true
  · rw [if_pos hcond]
    have hne : fd ≠ fd0 := by
      intro heq
      subst heq
      simp [hr, hw, he] at hcond
    cases world fd0 with
    | none =>
      by_cases hes : es fd0 = true <;>
        simp [hes, Select.setBit, hne, h.1, h.2.1, h.2.2]
    | some o =>
      cases o with
      | err =>
        by_cases hes : es fd0 = true <;>
          simp [hes, Select.setBit, hne, h.1, h.2.1, h.2.2]
      | ok r w =>
        by_cases h1 : (r && rs fd0) = true <;>
          by_cases h2 : (w && ws fd0) = true <;>
            simp [h1, h2, Select.setBit, hne, h.1, h.2.1, h.2.2]
  · rw [if_neg hcond]
    exact h

/-- Folding the sampler never sets an output bit for an fd outside all
three (masked) input sets. -/
theorem foldl_sampleFd_zero (world : Epoll.FdWorld)
    (rs ws es : Select.FdSet) (fd : Nat)
    (hr : rs fd = false) (hw : ws fd = false) (he : es fd = false) :
    ∀ (l : List Nat) (acc : Select.PassResult),
      (acc.rOut fd = false ∧ acc.wOut fd = false ∧ acc.eOut fd = false) →
      ((l.foldl (Select.sampleFd world rs ws es) acc).rOut fd = false ∧
       (l.foldl (Select.sampleFd world rs ws es) acc).wOut fd = false ∧
       (l.foldl (Select.sampleFd world rs ws es) acc).eOut fd = false) := by
  intro l
  induction l with
  | nil => intro acc h; simpa using h
  | cons x xs ih =>
    intro acc h
    simp only [List.foldl_cons]
    exact ih _ (sampleFd_zero world rs ws es acc x fd hr hw he h)


/-- A sampling pass never sets an output bit at or above the clamped
`nfds`. -/
theorem selectPass_zero_above (world : Epoll.FdWorld) (n : Nat)
    (rfds wfds efds : Option Select.FdSet) (fd : Nat) (hfd : n ≤ fd) :
    (Select.selectPass world n rfds wfds efds).rOut fd = false ∧
    (Select.selectPass world n rfds wfds efds).wOut fd = false ∧
    (Select.selectPass world n rfds wfds efds).eOut fd = false := by
  unfold Select.selectPass Select.poll_all
  exact foldl_sampleFd_zero world _ _ _ fd
    (by simp [Select.maskSet]; omega)
    (by simp [Select.maskSet]; omega)
    (by simp [Select.maskSet]; omega)
    (List.range n) ⟨Select.emptySet, Select.emptySet, Select.emptySet, 0⟩
    ⟨rfl, rfl, rfl⟩

/-- The masked per-fd not-ready condition follows from the caller-set
condition below `n` and holds trivially at or above `n`. -/
theorem notReady_mask (world : Epoll.FdWorld) (n : Nat)
    (rfds wfds efds : Option Select.FdSet) (fd : Nat)
    (h : fd < n → Select.notReadyUser world rfds wfds efds fd) :
    Select.notReady world (Select.maskSet n rfds) (Select.maskSet n wfds)
      (Select.maskSet n efds) fd := by
  by_cases hlt : fd < n
  · have hn := h hlt
    unfold Select.notReadyUser at hn
    unfold Select.notReady
    cases hwf : world fd with
    | none =>
      simp only [hwf] at hn
      simp [Select.maskSet, hlt, hn]
    | some o =>
      cases o with
      | err =>
        simp only [hwf] at hn
        simp [Select.maskSet, hlt, hn]
      | ok r w =>
        simp only [hwf] at hn
        obtain ⟨ha, hb⟩ := hn
        constructor
        · intro ⟨hr1, hr2⟩
          simp only [Select.maskSet, hlt, decide_eq_true_eq, decide_True, Bool.true_and] at hr2
          exact ha ⟨hr1, hr2⟩
        · intro ⟨hw1, hw2⟩
          simp only [Select.maskSet, hlt, decide_eq_true_eq, decide_True, Bool.true_and] at hw2
          exact hb ⟨hw1, hw2⟩
  · unfold Select.notReady
    cases hwf : world fd with
    | none => simp [Select.maskSet, hlt]
    | some o =>
      cases o with
      | err => simp [Select.maskSet, hlt]
      | ok r w => simp [Select.maskSet, hlt]

/-- When no watched fd below `n` is ready, the sampling pass returns the
untouched all-zero accumulator. -/
theorem selectPass_notReady (world : Epoll.FdWorld) (n : Nat)
    (rfds wfds efds : Option Select.FdSet)
    (h : ∀ fd, fd < n → Select.notReadyUser world rfds wfds efds fd) :
    Select.selectPass world n rfds wfds efds =
      ⟨Select.emptySet, Select.emptySet, Select.emptySet, 0⟩ := by
  unfold Select.selectPass Select.poll_all
  exact foldl_sampleFd_id world _ _ _ (List.range n) _
    (fun fd hfd => notReady_mask world n rfds wfds efds fd
      (fun _ => h fd (List.mem_range.mp hfd)))

/-- C8: `sys_select` with a zero timeout rejects negative `nfds` with
`EINVAL`; clamps `nfds` at `FD_SETSIZE = 1024` (a larger value behaves
exactly as 1024); never sets an output bit at or above the clamped
`nfds` (outputs are zero-initialized and sampling is masked); and when no
watched fd is ready it returns 0 with every non-null output fd_set equal
to the all-zero bitset. -/
theorem c8_select_zero_timeout :
    (∀ (world : Epoll.FdWorld) (nfds : Int) rfds wfds efds, nfds < 0 →
      Select.sys_select_zero world nfds rfds wfds efds =
        .error .EINVAL) ∧
    (∀ (world : Epoll.FdWorld) (nfds : Int) rfds wfds efds,
      (1024 : Int) ≤ nfds →
      Select.sys_select_zero world nfds rfds wfds efds =
        Select.sys_select_zero world 1024 rfds wfds efds) ∧
    (∀ (world : Epoll.FdWorld) (nfds : Int) rfds wfds efds num ro wo eo,
      Select.sys_select_zero world nfds rfds wfds efds =
        .ok (num, ro, wo, eo) →
      ∀ fd, min nfds.toNat 1024 ≤ fd → ∀ s : Select.FdSet,
        (ro = some s → s fd = false) ∧ (wo = some s → s fd = false) ∧
        (eo = some s → s fd = false)) ∧
    (∀ (world : Epoll.FdWorld) (nfds : Int) rfds wfds efds, 0 ≤ nfds →
      (∀ fd, fd < min nfds.toNat 1024 →
        Select.notReadyUser world rfds wfds efds fd) →
      Select.sys_select_zero world nfds rfds wfds efds =
        .ok (0, rfds.map fun _ => Select.emptySet,
          wfds.map fun _ => Select.emptySet,
          efds.map fun _ => Select.emptySet)) := by
  refine ⟨?_, ?_, ?_, ?_⟩
  · intro world nfds rfds wfds efds h
    simp [Select.sys_select_zero, h]
  · intro world nfds rfds wfds efds h1024
    have h0 : ¬(nfds < 0) := by omega
    have h0' : ¬((1024 : Int) < 0) := by omega
    have hn : min nfds.toNat Select.FD_SETSIZE =
        min (1024 : Int).toNat Select.FD_SETSIZE := by
      simp only [Select.FD_SETSIZE]
      omega
    simp only [Select.sys_select_zero, if_neg h0, if_neg h0', hn]
  · intro world nfds rfds wfds efds num ro wo eo heq fd hfd s
    by_cases hneg : nfds < 0
    · simp [Select.sys_select_zero, hneg] at heq
    · simp only [Select.sys_select_zero, if_neg hneg, Except.ok.injEq,
        Prod.mk.injEq] at heq
      obtain ⟨hnum, hro, hwo, heo⟩ := heq
      have hfd' : min nfds.toNat Select.FD_SETSIZE ≤ fd := by
        simp only [Select.FD_SETSIZE]
        omega
      have hbits := selectPass_zero_above world
        (min nfds.toNat Select.FD_SETSIZE) rfds wfds efds fd hfd'
      refine ⟨fun hros => ?_, fun hwos => ?_, fun heos => ?_⟩
      · rw [← hro] at hros
        obtain ⟨s0, hs0, hs1⟩ := Option.map_eq_some'.mp hros
        rw [← hs1]
        exact hbits.1
      · rw [← hwo] at hwos
        obtain ⟨s0, hs0, hs1⟩ := Option.map_eq_some'.mp hwos
        rw [← hs1]
        exact hbits.2.1
      · rw [← heo] at heos
        obtain ⟨s0, hs0, hs1⟩ := Option.map_eq_some'.mp heos
        rw [← hs1]
        exact hbits.2.2
  · intro world nfds rfds wfds efds h0 hnr
    have hneg : ¬(nfds < 0) := by omega
    have hnr' : ∀ fd, fd < min nfds.toNat Select.FD_SETSIZE →
        Select.notReadyUser world rfds wfds efds fd := by
      intro fd hfd
      apply hnr
      simpa [Select.FD_SETSIZE] using hfd
    have hpass := selectPass_notReady world
      (min nfds.toNat Select.FD_SETSIZE) rfds wfds efds hnr'
    simp only [Select.sys_select_zero, if_neg hneg, hpass]

/-- Witness for C8: the theorem applied at nfds −1 (reject), nfds 2000
(clamp), and an 8-fd call watching fd 1 for read in a world with no live
fds (nothing ready, zero timeout ⇒ 0 ready and all-zero outputs; bit 100
of the output set is clear). -/
theorem c8_select_zero_timeout_witness :
    Select.sys_select_zero (fun _ => none) (-1) none none none =
      .error .EINVAL ∧
    Select.sys_select_zero (fun _ => none) 2000 none none none =
      Select.sys_select_zero (fun _ => none) 1024 none none none ∧
    Select.emptySet 100 = false ∧
    Select.sys_select_zero (fun _ => none) 8
        (some (fun fd => fd == 1)) none none =
      .ok (0, some Select.emptySet, none, none) := by
  have h4 := c8_select_zero_timeout.2.2.2 (fun _ => none) 8
    (some (fun fd => fd == 1)) none none (by norm_num)
    (by intro fd _; simp [Select.notReadyUser, Select.inSet])
  refine ⟨c8_select_zero_timeout.1 (fun _ => none) (-1) none none none
      (by norm_num),
    c8_select_zero_timeout.2.1 (fun _ => none) 2000 none none none
      (by norm_num), ?_, h4⟩
  exact (c8_select_zero_timeout.2.2.1 (fun _ => none) 8
    (some (fun fd => fd == 1)) none none 0 (some Select.emptySet) none none
    h4 100 (by decide) Select.emptySet).1 rfl

/-- The group-change tail shared by `sys_setpgid` and the spec's rules 4
and 5 computes identically. -/
theorem setpgidTail_eq (s : Setpgid.System) (t : Setpgid.Process)
    (g : Nat) :
    (if g = t.pid then
      if !s.canCreate t.pid then Except.error Errno.EPERM
      else Except.ok (0 : Int)
    else
      match Setpgid.getGroup s g with
      | none => Except.error Errno.EPERM
      | some gsid =>
        if gsid ≠ t.sid then Except.error Errno.EPERM
        else if !s.canMove t.pid g then Except.error Errno.EPERM
        else Except.ok 0) =
    (if g = t.pid then
      if s.canCreate t.pid then Except.ok (0 : Int)
      else Except.error Errno.EPERM
    else if (Setpgid.getGroup s g).isNone then Except.error Errno.EPERM
    else if Setpgid.getGroup s g ≠ some t.sid then Except.error Errno.EPERM
    else if s.canMove t.pid g then Except.ok 0
    else Except.error Errno.EPERM) := by
  by_cases h : g = t.pid
  · simp only [h, if_pos]
    cases s.canCreate t.pid <;> simp
  · simp only [if_neg h]
    cases hg : Setpgid.getGroup s g with
    | none => simp
    | some gsid =>
      by_cases h2 : gsid = t.sid
      · subst h2
        simp only [ne_eq, not_true_eq_false, if_false, Option.isSome_some,
          Option.isNone_some, Bool.false_eq_true, reduceIte,
          not_false_eq_true]
        cases s.canMove t.pid g <;> simp
      · simp [h2]

/-- C7: `sys_setpgid` implements exactly the spec's ordered rules, for
every pid/pgid pair, provided the caller is consistently registered in
the process table. -/
theorem c7_setpgid_rules :
    ∀ (s : Setpgid.System) (caller : Setpgid.Process) (pid pgid : Nat),
      Setpgid.getProcess s caller.pid = some caller →
      Setpgid.sys_setpgid s caller pid pgid =
        Setpgid.setpgidSpecRules s caller pid pgid := by
  intro s caller pid pgid hcons
  unfold Setpgid.sys_setpgid Setpgid.setpgidSpecRules
  cases htgt : (if pid = 0 then some caller else Setpgid.getProcess s pid)
    with
  | none => rfl
  | some t =>
    have hteq : t.pid = caller.pid → t = caller := by
      intro hpid
      by_cases hp : pid = 0
      · rw [if_pos hp] at htgt
        exact (Option.some_injective _ htgt).symm
      · rw [if_neg hp] at htgt
        have hpidt : t.pid = pid := by
          have h := List.find?_some htgt
          simpa using h
        rw [hpidt] at hpid
        rw [hpid] at htgt
        rw [hcons] at htgt
        exact (Option.some_injective _ htgt).symm
    dsimp only
    by_cases h1 : (if pgid = 0 then t.pid else pgid) = t.pgid
    · rw [if_pos h1, if_pos h1]
    · rw [if_neg h1, if_neg h1]
      by_cases hpid : t.pid = caller.pid
      · have ht := hteq hpid
        rw [ht]
        rw [if_neg (not_not_intro rfl)]
        rw [if_neg (fun h : caller.pid ≠ caller.pid ∧
          caller.parent ≠ some caller.pid => h.1 rfl)]
        rw [if_neg (not_not_intro rfl)]
        exact setpgidTail_eq s caller _
      · by_cases hpar : (t.parent.elim false
            (fun pp => pp == caller.pid)) = true
        · have hpar' : t.parent = some caller.pid := by
            cases hp : t.parent with
            | none => rw [hp] at hpar; simp at hpar
            | some pp =>
              rw [hp] at hpar
              simp only [Option.elim_some, beq_iff_eq] at hpar
              rw [hpar]
          have hand2 : ¬((t.pid ≠ caller.pid) ∧
              ¬(t.parent = some caller.pid)) :=
            fun h => h.2 hpar'
          by_cases hsid : t.sid = caller.sid
          · rw [if_pos hpid, hpar]
            rw [if_neg (by simp : ¬((!true) = true))]
            rw [if_neg (not_not_intro hsid)]
            rw [if_neg hand2]
            rw [if_neg (not_not_intro hsid)]
            exact setpgidTail_eq s t _
          · rw [if_pos hpid, hpar]
            rw [if_neg (by simp : ¬((!true) = true))]
            rw [if_pos hsid]
            rw [if_neg hand2]
            rw [if_pos hsid]
        · have hpar' : ¬(t.parent = some caller.pid) := by
            intro hp
            rw [hp] at hpar
            simp at hpar
          rw [if_pos hpid]
          rw [if_pos (by simp [Bool.not_eq_true] at hpar ⊢; exact hpar)]
          rw [if_pos (And.intro hpid hpar')]

/-- Witness for C7: the theorem applied to the concrete system, caller
pid 1 moving child pid 2 into its own new group. -/
theorem c7_setpgid_rules_witness :
    Setpgid.sys_setpgid setpgidTestSystem ⟨1, none, 1, 1⟩ 2 2 =
      Setpgid.setpgidSpecRules setpgidTestSystem ⟨1, none, 1, 1⟩ 2 2 :=
  c7_setpgid_rules setpgidTestSystem ⟨1, none, 1, 1⟩ 2 2 rfl

/-- The copy loop with null offsets: with enough fuel it transfers
exactly `min remaining (source size − source position)` bytes and
advances both sequential file positions by that amount (the input file's
size unchanged). -/
theorem cfrLoopF_null :
    ∀ (fuel remaining : Nat) (fin fout : Cfr.CfrFile), remaining ≤ fuel →
      (Cfr.cfrLoopF fuel fin fout none none remaining).1 =
        min remaining (fin.size - fin.pos) ∧
      (Cfr.cfrLoopF fuel fin fout none none remaining).2.1.pos =
        fin.pos + min remaining (fin.size - fin.pos) ∧
      (Cfr.cfrLoopF fuel fin fout none none remaining).2.1.size =
        fin.size ∧
      (Cfr.cfrLoopF fuel fin fout none none remaining).2.2.1.pos =
        fout.pos + min remaining (fin.size - fin.pos) := by
  intro fuel
  induction fuel with
  | zero =>
    intro remaining fin fout h
    have hz : remaining = 0 := by omega
    subst hz
    simp [Cfr.cfrLoopF]
  | succ fuel ih =>
    intro remaining fin fout h
    by_cases hr : remaining = 0
    · subst hr
      simp [Cfr.cfrLoopF]
    · simp only [Cfr.cfrLoopF]
      rw [if_neg hr]
      by_cases hb : min (min 8192 remaining) (fin.size - fin.pos) = 0
      · rw [if_pos hb]
        dsimp only
        refine ⟨by omega, by omega, rfl, by omega⟩
      · rw [if_neg hb]
        rw [if_neg (lt_irrefl _)]
        simp only [Option.map_none']
        have hrec := ih
          (remaining - min (min 8192 remaining) (fin.size - fin.pos))
          ⟨fin.size, fin.pos + min (min 8192 remaining)
            (fin.size - fin.pos)⟩
          ⟨max fout.size (fout.pos + min (min 8192 remaining)
            (fin.size - fin.pos)),
            fout.pos + min (min 8192 remaining) (fin.size - fin.pos)⟩
          (by omega)
        obtain ⟨e1, e2, e3, e4⟩ := hrec
        dsimp only at e1 e2 e3 e4 ⊢
        refine ⟨by omega, by omega, by omega, by omega⟩

/-- The copy loop with non-null user offsets: it transfers
`min remaining (source size − *off_in)` bytes, advances both user
offsets by that amount, and leaves both files' sequential positions
untouched. -/
theorem cfrLoopF_some :
    ∀ (fuel remaining : Nat) (fin fout : Cfr.CfrFile) (oIn oOut : Nat),
      remaining ≤ fuel →
      (Cfr.cfrLoopF fuel fin fout (some oIn) (some oOut) remaining).1 =
        min remaining (fin.size - oIn) ∧
      (Cfr.cfrLoopF fuel fin fout (some oIn) (some oOut) remaining).2.1 =
        fin ∧
      (Cfr.cfrLoopF fuel fin fout (some oIn) (some oOut)
        remaining).2.2.1.pos = fout.pos ∧
      (Cfr.cfrLoopF fuel fin fout (some oIn) (some oOut)
        remaining).2.2.2.1 =
        some (oIn + min remaining (fin.size - oIn)) ∧
      (Cfr.cfrLoopF fuel fin fout (some oIn) (some oOut)
        remaining).2.2.2.2 =
        some (oOut + min remaining (fin.size - oIn)) := by
  intro fuel
  induction fuel with
  | zero =>
    intro remaining fin fout oIn oOut h
    have hz : remaining = 0 := by omega
    subst hz
    simp [Cfr.cfrLoopF]
  | succ fuel ih =>
    intro remaining fin fout oIn oOut h
    by_cases hr : remaining = 0
    · subst hr
      simp [Cfr.cfrLoopF]
    · simp only [Cfr.cfrLoopF]
      rw [if_neg hr]
      by_cases hb : min (min 8192 remaining) (fin.size - oIn) = 0
      · rw [if_pos hb]
        dsimp only
        simp only [Option.map_some', Option.some.injEq]
        refine ⟨by omega, trivial, trivial, by omega, by omega⟩
      · rw [if_neg hb]
        rw [if_neg (lt_irrefl _)]
        simp only [Option.map_some']
        have hrec := ih
          (remaining - min (min 8192 remaining) (fin.size - oIn))
          fin
          ⟨max fout.size (oOut + min (min 8192 remaining)
            (fin.size - oIn)), fout.pos⟩
          (oIn + min (min 8192 remaining) (fin.size - oIn))
          (oOut + min (min 8192 remaining) (fin.size - oIn))
          (by omega)
        obtain ⟨e1, e2, e3, e4, e5⟩ := hrec
        dsimp only at e1 e2 e3 e4 e5 ⊢
        rw [e1, e2, e3, e4, e5]
        simp only [Option.some.injEq]
        refine ⟨by omega, trivial, trivial, by omega, by omega⟩

/-- C6: `copy_file_range` rejects `fd_in == fd_out` with `EINVAL`; with
null offsets between distinct file fds it copies exactly
`min(len, bytes remaining in the source)` bytes and advances both files'
sequential positions by that amount; with non-null offsets it copies
`min(len, size − *off_in)` bytes, advances both user offsets by that
amount, and leaves both files' positions untouched. -/
theorem c6_copy_file_range :
    (∀ (t : Int → Option Cfr.CfrObj) fd offIn offOut len,
      Cfr.sys_copy_file_range t fd fd offIn offOut len =
        .error .EINVAL) ∧
    (∀ (t : Int → Option Cfr.CfrObj) fdIn fdOut fin fout len r,
      fdIn ≠ fdOut → t fdIn = some (.file fin) →
      t fdOut = some (.file fout) →
      Cfr.sys_copy_file_range t fdIn fdOut none none len = .ok r →
      r.1 = min len (fin.size - fin.pos) ∧
      r.2.1.pos = fin.pos + r.1 ∧ r.2.1.size = fin.size ∧
      r.2.2.1.pos = fout.pos + r.1) ∧
    (∀ (t : Int → Option Cfr.CfrObj) fdIn fdOut fin fout len oIn oOut r,
      fdIn ≠ fdOut → t fdIn = some (.file fin) →
      t fdOut = some (.file fout) →
      Cfr.sys_copy_file_range t fdIn fdOut (some oIn) (some oOut) len =
        .ok r →
      r.1 = min len (fin.size - oIn) ∧ r.2.1 = fin ∧
      r.2.2.1.pos = fout.pos ∧
      r.2.2.2.1 = some (oIn + r.1) ∧ r.2.2.2.2 = some (oOut + r.1)) := by
  refine ⟨?_, ?_, ?_⟩
  · intro t fd offIn offOut len
    simp [Cfr.sys_copy_file_range]
  · intro t fdIn fdOut fin fout len r hne hin hout hok
    simp only [Cfr.sys_copy_file_range, if_neg hne, hin, hout,
      Except.ok.injEq] at hok
    have hl := cfrLoopF_null len len fin fout (le_refl len)
    rw [← hok]
    simp only [Cfr.cfrLoop]
    exact ⟨hl.1, by rw [hl.1]; exact hl.2.1, hl.2.2.1,
      by rw [hl.1]; exact hl.2.2.2⟩
  · intro t fdIn fdOut fin fout len oIn oOut r hne hin hout hok
    simp only [Cfr.sys_copy_file_range, if_neg hne, hin, hout,
      Except.ok.injEq] at hok
    have hl := cfrLoopF_some len len fin fout oIn oOut (le_refl len)
    rw [← hok]
    simp only [Cfr.cfrLoop]
    exact ⟨hl.1, hl.2.1, hl.2.2.1, by rw [hl.1]; exact hl.2.2.2.1,
      by rw [hl.1]; exact hl.2.2.2.2⟩

/-- Witness for C6: equal fds rejected; a 20-byte null-offset copy from
fd 3 (100 bytes, position 10) to fd 4 copies 20 bytes advancing both
positions; the same copy through user offsets 0/30 advances the offsets
instead. -/
theorem c6_copy_file_range_witness :
    Cfr.sys_copy_file_range cfrTestTable 3 3 none none 20 =
      .error .EINVAL ∧
    ((20 : Nat) = min 20 (100 - 10) ∧ (30 : Nat) = 10 + 20 ∧
      (100 : Nat) = 100 ∧ (20 : Nat) = 0 + 20) ∧
    ((20 : Nat) = min 20 (100 - 0) ∧
      (⟨100, 10⟩ : Cfr.CfrFile) = ⟨100, 10⟩ ∧ (0 : Nat) = 0 ∧
      some (20 : Nat) = some (0 + 20) ∧
      some (50 : Nat) = some (30 + 20)) :=
  ⟨c6_copy_file_range.1 cfrTestTable 3 none none 20,
    c6_copy_file_range.2.1 cfrTestTable 3 4 ⟨100, 10⟩ ⟨50, 0⟩ 20
      (20, ⟨100, 30⟩, ⟨50, 20⟩, none, none) (by decide) rfl rfl rfl,
    c6_copy_file_range.2.2 cfrTestTable 3 4 ⟨100, 10⟩ ⟨50, 0⟩ 20 0 30
      (20, ⟨100, 10⟩, ⟨50, 0⟩, some 20, some 50) (by decide) rfl rfl rfl⟩

/-- Counterexample to C4 as stated: a splice from a readable pipe (fd 5)
into a file (fd 6) with a NON-NULL offset argument on the pipe endpoint
(`off_in = some 0`) is accepted — the call returns `.ok` (here 0 bytes,
the pipe being empty), not `EINVAL`.  The code never checks that the
pipe side's offset pointer is null. -/
theorem c4_splice_counterexample :
    Splice.sys_splice spliceTestTable 5 6 (some 0) (some 0) 16 =
      .ok (.pipeToFile 0 ⟨true, true, 0, false⟩ ⟨10, 0⟩ 0) ∧
    Splice.sys_splice spliceTestTable 5 6 (some 0) (some 0) 16 ≠
      .error .EINVAL := by
  constructor
  · rfl
  · intro h
    rw [show Splice.sys_splice spliceTestTable 5 6 (some 0) (some 0) 16 =
      .ok (.pipeToFile 0 ⟨true, true, 0, false⟩ ⟨10, 0⟩ 0) from rfl] at h
    exact Except.noConfusion h

/-- C4 (amended): `splice` returns `EINVAL` when `fd_in == fd_out`, when
any non-null offset value is negative, when neither or both endpoints are
pipes, and when the file endpoint's offset argument is null; it returns
`EPERM` when the reading pipe is not readable or the writing pipe is not
writable.  (A non-null offset argument on the pipe endpoint is NOT
rejected; it is ignored.) -/
theorem c4_splice_checks :
    (∀ t fd offIn offOut len,
      Splice.sys_splice t fd fd offIn offOut len = .error .EINVAL) ∧
    (∀ (t : Splice.FdTable) fdIn fdOut offIn offOut len, fdIn ≠ fdOut →
      ((∃ v, offIn = some v ∧ v < 0) ∨ (∃ v, offOut = some v ∧ v < 0)) →
      Splice.sys_splice t fdIn fdOut offIn offOut len =
        .error .EINVAL) ∧
    (∀ (t : Splice.FdTable) fdIn fdOut offIn offOut len, fdIn ≠ fdOut →
      (∀ v, offIn = some v → 0 ≤ v) → (∀ v, offOut = some v → 0 ≤ v) →
      ((∀ p, t fdIn ≠ some (.pipe p)) ∧ (∀ p, t fdOut ≠ some (.pipe p)) ∨
       (∃ p q, t fdIn = some (.pipe p) ∧ t fdOut = some (.pipe q))) →
      Splice.sys_splice t fdIn fdOut offIn offOut len =
        .error .EINVAL) ∧
    (∀ (t : Splice.FdTable) fdIn fdOut offIn offOut len p, fdIn ≠ fdOut →
      (∀ v, offIn = some v → 0 ≤ v) → (∀ v, offOut = some v → 0 ≤ v) →
      t fdIn = some (.pipe p) → (∀ q, t fdOut ≠ some (.pipe q)) →
      p.canRead = false →
      Splice.sys_splice t fdIn fdOut offIn offOut len =
        .error .EPERM) ∧
    (∀ (t : Splice.FdTable) fdIn fdOut offIn len p, fdIn ≠ fdOut →
      (∀ v, offIn = some v → 0 ≤ v) →
      t fdIn = some (.pipe p) → (∀ q, t fdOut ≠ some (.pipe q)) →
      p.canRead = true →
      Splice.sys_splice t fdIn fdOut offIn none len =
        .error .EINVAL) ∧
    (∀ (t : Splice.FdTable) fdIn fdOut offOut len p, fdIn ≠ fdOut →
      (∀ v, offOut = some v → 0 ≤ v) →
      t fdOut = some (.pipe p) → (∀ q, t fdIn ≠ some (.pipe q)) →
      p.canWrite = false →
      Splice.sys_splice t fdIn fdOut none offOut len =
        .error .EPERM) ∧
    (∀ (t : Splice.FdTable) fdIn fdOut offOut len p, fdIn ≠ fdOut →
      (∀ v, offOut = some v → 0 ≤ v) →
      t fdOut = some (.pipe p) → (∀ q, t fdIn ≠ some (.pipe q)) →
      p.canWrite = true →
      Splice.sys_splice t fdIn fdOut none offOut len =
        .error .EINVAL) := by
  have hoelim : ∀ (o : Option Int), (∀ v, o = some v → 0 ≤ v) →
      (o.elim false (fun v => decide (v < 0))) = false := by
    intro o ho
    cases o with
    | none => rfl
    | some v =>
      have := ho v rfl
      simp only [Option.elim_some, decide_eq_false_iff_not]
      omega
  have hnotpipe : ∀ (t : Splice.FdTable) fd,
      (∀ p, t fd ≠ some (.pipe p)) → Splice.pipeOf t fd = none := by
    intro t fd hnp
    unfold Splice.pipeOf
    cases ht : t fd with
    | none => rfl
    | some o =>
      cases o with
      | pipe p => exact absurd ht (hnp p)
      | file f => rfl
      | other => rfl
  have hispipe : ∀ (t : Splice.FdTable) fd p, t fd = some (.pipe p) →
      Splice.pipeOf t fd = some p := by
    intro t fd p hp
    unfold Splice.pipeOf
    rw [hp]
  refine ⟨?_, ?_, ?_, ?_, ?_, ?_, ?_⟩
  · intro t fd offIn offOut len
    simp [Splice.sys_splice]
  · intro t fdIn fdOut offIn offOut len hne hneg
    rw [Splice.sys_splice, if_neg hne]
    rcases hneg with ⟨v, hov, hv⟩ | ⟨v, hov, hv⟩
    · rw [hov]
      simp only [Option.elim_some, decide_eq_true_eq]
      rw [if_pos hv]
    · by_cases hfirst :
          (offIn.elim false (fun v => decide (v < 0))) = true
      · rw [if_pos hfirst]
      · rw [if_neg hfirst, hov]
        simp only [Option.elim_some, decide_eq_true_eq]
        rw [if_pos hv]
  · intro t fdIn fdOut offIn offOut len hne hoi hoo hcls
    rw [Splice.sys_splice, if_neg hne, hoelim offIn hoi,
      hoelim offOut hoo]
    simp only [Bool.false_eq_true, if_false]
    rcases hcls with ⟨hnp1, hnp2⟩ | ⟨p, q, hp, hq⟩
    · rw [hnotpipe t fdIn hnp1, hnotpipe t fdOut hnp2]
    · rw [hispipe t fdIn p hp, hispipe t fdOut q hq]
  · intro t fdIn fdOut offIn offOut len p hne hoi hoo hp hnq hread
    rw [Splice.sys_splice, if_neg hne, hoelim offIn hoi,
      hoelim offOut hoo]
    simp only [Bool.false_eq_true, if_false]
    rw [hispipe t fdIn p hp, hnotpipe t fdOut hnq]
    simp [hread]
  · intro t fdIn fdOut offIn len p hne hoi hp hnq hread
    rw [Splice.sys_splice, if_neg hne, hoelim offIn hoi]
    simp only [Option.elim_none, Bool.false_eq_true, if_false]
    rw [hispipe t fdIn p hp, hnotpipe t fdOut hnq]
    simp [hread]
  · intro t fdIn fdOut offOut len p hne hoo hp hnq hwrite
    rw [Splice.sys_splice, if_neg hne, hoelim offOut hoo]
    simp only [Option.elim_none, Bool.false_eq_true, if_false]
    rw [hispipe t fdOut p hp, hnotpipe t fdIn hnq]
    simp [hwrite]
  · intro t fdIn fdOut offOut len p hne hoo hp hnq hwrite
    rw [Splice.sys_splice, if_neg hne, hoelim offOut hoo]
    simp only [Option.elim_none, Bool.false_eq_true, if_false]
    rw [hispipe t fdOut p hp, hnotpipe t fdIn hnq]
    simp [hwrite]

/-- Witness for C4 (amended): the theorem applied on the concrete fd
table (5 readable/writable empty pipe, 6 file, 7 non-readable pipe,
9 non-writable pipe, 8 dead). -/
theorem c4_splice_checks_witness :
    Splice.sys_splice spliceTestTable 6 6 none (some 0) 8 =
      .error .EINVAL ∧
    Splice.sys_splice spliceTestTable 5 6 (some (-1)) (some 0) 8 =
      .error .EINVAL ∧
    Splice.sys_splice spliceTestTable 6 8 none (some 0) 8 =
      .error .EINVAL ∧
    Splice.sys_splice spliceTestTable 7 6 none (some 0) 8 =
      .error .EPERM ∧
    Splice.sys_splice spliceTestTable 5 6 (some 0) none 8 =
      .error .EINVAL ∧
    Splice.sys_splice spliceTestTable 6 9 none (some 0) 8 =
      .error .EPERM ∧
    Splice.sys_splice spliceTestTable 6 5 none (some 0) 8 =
      .error .EINVAL := by
  have hnp6 : ∀ p, spliceTestTable 6 ≠ some (.pipe p) := by
    intro p h
    simp [spliceTestTable] at h
  have hnp8 : ∀ p, spliceTestTable 8 ≠ some (.pipe p) := by
    intro p h
    simp [spliceTestTable] at h
  have hz : ∀ v : Int, some (0 : Int) = some v → 0 ≤ v := by
    intro v h
    simp at h
    omega
  have hnone : ∀ v : Int, (none : Option Int) = some v → 0 ≤ v := by
    intro v h
    cases h
  refine ⟨c4_splice_checks.1 spliceTestTable 6 none (some 0) 8,
    c4_splice_checks.2.1 spliceTestTable 5 6 (some (-1)) (some 0) 8
      (by decide) (.inl ⟨-1, rfl, by norm_num⟩),
    c4_splice_checks.2.2.1 spliceTestTable 6 8 none (some 0) 8
      (by decide) hnone hz (.inl ⟨hnp6, hnp8⟩),
    c4_splice_checks.2.2.2.1 spliceTestTable 7 6 none (some 0) 8
      ⟨false, true, 0, false⟩ (by decide) hnone hz rfl hnp6 rfl,
    c4_splice_checks.2.2.2.2.1 spliceTestTable 5 6 (some 0) 8
      ⟨true, true, 0, false⟩ (by decide) hz rfl hnp6 rfl,
    c4_splice_checks.2.2.2.2.2.1 spliceTestTable 6 9 (some 0) 8
      ⟨true, false, 0, false⟩ (by decide) hz rfl hnp6 rfl,
    c4_splice_checks.2.2.2.2.2.2 spliceTestTable 6 5 (some 0) 8
      ⟨true, true, 0, false⟩ (by decide) hz rfl hnp6 rfl⟩

/-- After writing a segment under `id`, looking `id` up finds exactly it. -/
theorem find?_setSeg (id : Int) (s : Shm.Segment) :
    ∀ (l : List (Int × Shm.Segment)),
      List.find? (fun kv => kv.1 == id) (Shm.setSeg l id s) =
        some (id, s) := by
  intro l
  induction l with
  | nil => simp [Shm.setSeg]
  | cons kv rest ih =>
    obtain ⟨k, v⟩ := kv
    by_cases hk : k = id
    · simp [Shm.setSeg, hk]
    · simp only [Shm.setSeg, if_neg hk]
      rw [List.find?_cons_of_neg]
      · exact ih
      · simp [hk]

/-- Writing an existing key does not change the key list. -/
theorem keys_setSeg (id : Int) (s : Shm.Segment) :
    ∀ (l : List (Int × Shm.Segment)),
      (List.find? (fun kv => kv.1 == id) l).isSome →
      (Shm.setSeg l id s).map Prod.fst = l.map Prod.fst := by
  intro l
  induction l with
  | nil => intro h; simp [List.find?] at h
  | cons kv rest ih =>
    obtain ⟨k, v⟩ := kv
    intro h
    by_cases hk : k = id
    · simp [Shm.setSeg, hk]
    · simp only [Shm.setSeg, if_neg hk, List.map_cons]
      rw [List.find?_cons_of_neg] at h
      · rw [ih h]
      · simp [hk]

/-- Dropping an id from a duplicate-free association list makes it
unfindable. -/
theorem find?_dropSeg (id : Int) :
    ∀ (l : List (Int × Shm.Segment)), (l.map Prod.fst).Nodup →
      List.find? (fun kv => kv.1 == id) (Shm.dropSeg l id) = none := by
  intro l
  induction l with
  | nil => intro h; simp [Shm.dropSeg]
  | cons kv rest ih =>
    obtain ⟨k, v⟩ := kv
    intro h
    simp only [List.map_cons, List.nodup_cons] at h
    by_cases hk : k = id
    · simp only [Shm.dropSeg, if_pos hk]
      apply List.find?_eq_none.mpr
      intro x hx
      simp only [beq_iff_eq]
      intro hxid
      apply h.1
      rw [← hk, ← hxid] at *
      exact List.mem_map_of_mem Prod.fst hx
    · simp only [Shm.dropSeg, if_neg hk]
      rw [List.find?_cons_of_neg]
      · exact ih h.2
      · simp [hk]

/-- Counterexample to C3 as stated: after `IPC_RMID` on the attached
segment (key 42, nattch 1), the segment stays in the registry marked for
deletion — but a `shmget` for key 42 with `IPC_CREAT|IPC_EXCL` returns
`EEXIST`, not the `ENOENT` the claim promises for every shmget by that
key (the `IPC_EXCL` check precedes the marked-for-deletion check). -/
theorem c3_shm_counterexample :
    (Shm.sys_shmctl_rmid shmM0 1).1 = .ok () ∧
    Shm.lookupSeg (Shm.sys_shmctl_rmid shmM0 1).2 1 =
      some { shmSeg1 with marked := true } ∧
    Shm.sys_shmget (Shm.sys_shmctl_rmid shmM0 1).2 42 4096
      (Shm.IPC_CREAT + Shm.IPC_EXCL) = .error .EEXIST ∧
    Errno.EEXIST ≠ Errno.ENOENT :=
  ⟨rfl, rfl, rfl, by decide⟩

/-- C3 (amended): after `shmctl(IPC_RMID)` with a positive attach count
the segment stays in the registry, marked; a subsequent `shmat` by id
that passes the argument checks fails with `EIDRM`; a subsequent `shmget`
by its key without `IPC_EXCL` fails with `ENOENT` (with `IPC_EXCL` it is
`EEXIST`, see the counterexample); and the segment is removed from the
registry exactly when the attach count reaches zero — immediately at
`IPC_RMID` if already zero, otherwise at the `shmdt` that drops it to
zero, while a `shmdt` that leaves it positive keeps the segment. -/
theorem c3_shm_deferred_delete :
    (∀ (m : Shm.Manager) id seg, Shm.lookupSeg m id = some seg →
      0 < seg.nattch →
      (Shm.sys_shmctl_rmid m id).1 = .ok () ∧
      Shm.lookupSeg (Shm.sys_shmctl_rmid m id).2 id =
        some { seg with marked := true }) ∧
    (∀ (m : Shm.Manager) id seg addr flg, Shm.lookupSeg m id = some seg →
      seg.marked = true → 0 ≤ id →
      (Int.land flg Shm.SHM_RND ≠ 0 ∨ addr = 0 ∨ addr % 4096 = 0) →
      Shm.shmatCheck m id addr flg = .error .EIDRM) ∧
    (∀ (m : Shm.Manager) id seg key size flags,
      Shm.lookupKey m key = some id → Shm.lookupSeg m id = some seg →
      seg.marked = true → Int.land flags Shm.IPC_EXCL = 0 →
      key ≠ Shm.IPC_PRIVATE → ¬size > Shm.MAX_SHM_SIZE → size ≠ 0 →
      Shm.sys_shmget m key size flags = .error .ENOENT) ∧
    (∀ (m : Shm.Manager) id seg, Shm.lookupSeg m id = some seg →
      (m.segments.map Prod.fst).Nodup → seg.nattch = 0 →
      (Shm.sys_shmctl_rmid m id).1 = .ok () ∧
      Shm.lookupSeg (Shm.sys_shmctl_rmid m id).2 id = none) ∧
    (∀ (m : Shm.Manager) (p : Shm.ProcShm) addr id seg,
      Shm.lookupAttach p addr = some id → Shm.lookupSeg m id = some seg →
      (m.segments.map Prod.fst).Nodup → seg.marked = true →
      seg.nattch = 1 →
      (Shm.sys_shmdt m p addr).1 = .ok () ∧
      Shm.lookupSeg (Shm.sys_shmdt m p addr).2.1 id = none) ∧
    (∀ (m : Shm.Manager) (p : Shm.ProcShm) addr id seg,
      Shm.lookupAttach p addr = some id → Shm.lookupSeg m id = some seg →
      2 ≤ seg.nattch →
      (Shm.sys_shmdt m p addr).1 = .ok () ∧
      Shm.lookupSeg (Shm.sys_shmdt m p addr).2.1 id =
        some { seg with nattch := seg.nattch - 1 }) := by
  refine ⟨?_, ?_, ?_, ?_, ?_, ?_⟩
  · intro m id seg hseg hpos
    unfold Shm.sys_shmctl_rmid
    simp only [hseg]
    rw [if_neg (by omega : ¬(seg.nattch = 0))]
    refine ⟨rfl, ?_⟩
    unfold Shm.lookupSeg
    rw [find?_setSeg]
    rfl
  · intro m id seg addr flg hseg hmarked hid halign
    unfold Shm.shmatCheck
    rw [if_neg (by omega)]
    rw [if_neg (by
      rintro ⟨h1, h2, h3⟩
      rcases halign with h | h | h
      · exact h h1
      · exact h2 h
      · exact h3 h)]
    simp only [hseg]
    unfold Shm.validate_segment
    rw [if_pos hmarked]
  · intro m id seg key size flags hkey hseg hmarked hexcl hkp hsz hsz0
    unfold Shm.sys_shmget
    rw [if_neg (by
      rintro (h | ⟨h, _⟩)
      · exact hsz h
      · exact hsz0 h)]
    unfold Shm.get_or_create
    rw [if_neg hkp]
    simp only [hkey]
    simp only [Shm.IPC_EXCL] at hexcl
    rw [if_neg (not_not_intro hexcl)]
    simp only [hseg]
    rw [if_pos hmarked]
  · intro m id seg hseg hnodup hz
    unfold Shm.sys_shmctl_rmid
    simp only [hseg]
    rw [if_pos (by simp [hz] : ({ seg with marked := true } :
      Shm.Segment).nattch = 0)]
    unfold Shm.removeSeg Shm.lookupSeg
    rw [find?_setSeg]
    simp only [Option.map_some']
    by_cases hk : seg.key ≠ Shm.IPC_PRIVATE
    · rw [if_pos hk]
      refine ⟨rfl, ?_⟩
      dsimp only
      have hnodup' : ((Shm.setSeg m.segments id
          { seg with marked := true }).map Prod.fst).Nodup := by
        rw [keys_setSeg]
        · exact hnodup
        · unfold Shm.lookupSeg at hseg
          cases hf : List.find? (fun kv => kv.1 == id) m.segments with
          | none => rw [hf] at hseg; simp at hseg
          | some kv => simp
      rw [find?_dropSeg id _ hnodup']
      rfl
    · rw [if_neg hk]
      refine ⟨rfl, ?_⟩
      dsimp only
      have hnodup' : ((Shm.setSeg m.segments id
          { seg with marked := true }).map Prod.fst).Nodup := by
        rw [keys_setSeg]
        · exact hnodup
        · unfold Shm.lookupSeg at hseg
          cases hf : List.find? (fun kv => kv.1 == id) m.segments with
          | none => rw [hf] at hseg; simp at hseg
          | some kv => simp
      rw [find?_dropSeg id _ hnodup']
      rfl
  · intro m p addr id seg hat hseg hnodup hmarked hone
    unfold Shm.sys_shmdt
    simp only [hat, hseg]
    have hdec : Shm.decAttach seg = { seg with nattch := 0 } := by
      unfold Shm.decAttach
      rw [if_pos (by omega)]
      simp [hone]
    rw [hdec]
    rw [if_pos (by simp [hmarked])]
    unfold Shm.removeSeg Shm.lookupSeg
    rw [find?_setSeg]
    simp only [Option.map_some']
    have hnodup' : ((Shm.setSeg m.segments id
        { seg with nattch := 0 }).map Prod.fst).Nodup := by
      rw [keys_setSeg]
      · exact hnodup
      · unfold Shm.lookupSeg at hseg
        cases hf : List.find? (fun kv => kv.1 == id) m.segments with
        | none => rw [hf] at hseg; simp at hseg
        | some kv => simp
    by_cases hk : seg.key ≠ Shm.IPC_PRIVATE
    · rw [if_pos hk]
      refine ⟨rfl, ?_⟩
      dsimp only
      rw [find?_dropSeg id _ hnodup']
      rfl
    · rw [if_neg hk]
      refine ⟨rfl, ?_⟩
      dsimp only
      rw [find?_dropSeg id _ hnodup']
      rfl
  · intro m p addr id seg hat hseg htwo
    unfold Shm.sys_shmdt
    simp only [hat, hseg]
    have hdec : Shm.decAttach seg = { seg with nattch := seg.nattch - 1 } := by
      unfold Shm.decAttach
      rw [if_pos (by omega)]
    rw [hdec]
    rw [if_neg (by
      rintro ⟨h1, h2⟩
      simp only at h2
      omega)]
    refine ⟨rfl, ?_⟩
    unfold Shm.lookupSeg
    rw [find?_setSeg]
    rfl

/-- Witness for C3 (amended): the theorem applied on the concrete
registry around segment id 1 / key 42. -/
theorem c3_shm_deferred_delete_witness :
    ((Shm.sys_shmctl_rmid shmM0 1).1 = .ok () ∧
      Shm.lookupSeg (Shm.sys_shmctl_rmid shmM0 1).2 1 =
        some { shmSeg1 with marked := true }) ∧
    Shm.shmatCheck shmM1 1 0 0 = .error .EIDRM ∧
    Shm.sys_shmget shmM1 42 4096 Shm.IPC_CREAT = .error .ENOENT ∧
    ((Shm.sys_shmctl_rmid shmM2 1).1 = .ok () ∧
      Shm.lookupSeg (Shm.sys_shmctl_rmid shmM2 1).2 1 = none) ∧
    ((Shm.sys_shmdt shmM1 shmP1 65536).1 = .ok () ∧
      Shm.lookupSeg (Shm.sys_shmdt shmM1 shmP1 65536).2.1 1 = none) ∧
    ((Shm.sys_shmdt shmM3 shmP1 65536).1 = .ok () ∧
      Shm.lookupSeg (Shm.sys_shmdt shmM3 shmP1 65536).2.1 1 =
        some { shmSeg1 with marked := true, nattch := 1 }) :=
  ⟨c3_shm_deferred_delete.1 shmM0 1 shmSeg1 rfl (by decide),
    c3_shm_deferred_delete.2.1 shmM1 1 { shmSeg1 with marked := true } 0 0
      rfl rfl (by decide) (.inr (.inl rfl)),
    c3_shm_deferred_delete.2.2.1 shmM1 1 { shmSeg1 with marked := true }
      42 4096 Shm.IPC_CREAT rfl rfl rfl (by decide) (by decide)
      (by decide) (by decide),
    c3_shm_deferred_delete.2.2.2.1 shmM2 1 { shmSeg1 with nattch := 0 }
      rfl (by decide) rfl,
    c3_shm_deferred_delete.2.2.2.2.1 shmM1 shmP1 65536 1
      { shmSeg1 with marked := true } rfl rfl (by decide) rfl rfl,
    c3_shm_deferred_delete.2.2.2.2.2 shmM3 shmP1 65536 1
      { shmSeg1 with marked := true, nattch := 2 } rfl rfl (by decide)⟩

/-- Counterexample to C1 as stated: `execve("/bin/s")` on a shebang
script pointing at a nonexistent interpreter passes validation (the file
starts with `#!`), tears the address space down, then fails inside
`load_user_app` — the syscall returns `ENOENT` while the address space
now holds only the trampoline mapping, not the caller's original
regions.  The error return is observably NOT atomic. -/
theorem c1_execve_counterexample :
    (Execve.sys_execve execWorld execSt0 "/bin/s" ["/bin/s"] [] 8).1 =
      .error .ENOENT ∧
    (Execve.sys_execve execWorld execSt0 "/bin/s" ["/bin/s"] [] 8).2.aspace
      = [Execve.trampolineRegion] ∧
    (Execve.sys_execve execWorld execSt0 "/bin/s" ["/bin/s"] [] 8).2.aspace
      ≠ execSt0.aspace :=
  ⟨rfl, rfl, by decide⟩

/-- C1 (amended): every failure of `sys_execve` that occurs before the
unmap step — the multi-thread guard (`EAGAIN`), an unreadable target
(`ENOENT`), or validation failure (`ENOEXEC`) — returns an error with
the task state (address space, name, exe path, trap frame) unchanged.
(Failures after the unmap, inside `load_user_app`, return an error with
the address space already rebuilt; see the counterexample.) -/
theorem c1_execve_preunmap_atomic :
    ∀ (w : Execve.ExecWorld) (st : Execve.TaskState) path args envs fuel,
      (1 < st.threads ∨ w.fs path = none ∨
        ((w.fs path).elim false (fun data =>
          !(data.take 2 = ['#', '!'] || w.isElf data)) = true)) →
      (∃ e, (Execve.sys_execve w st path args envs fuel).1 = .error e) ∧
      (Execve.sys_execve w st path args envs fuel).2 = st := by
  intro w st path args envs fuel hfail
  unfold Execve.sys_execve
  by_cases hth : st.threads > 1
  · rw [if_pos hth]
    exact ⟨⟨.EAGAIN, rfl⟩, rfl⟩
  · rw [if_neg hth]
    rcases hfail with h | h | h
    · exact absurd h hth
    · simp only [h]
      exact ⟨⟨.ENOENT, rfl⟩, trivial⟩
    · cases hfs : w.fs path with
      | none =>
        simp only [hfs]
        exact ⟨⟨.ENOENT, rfl⟩, trivial⟩
      | some data =>
        rw [hfs] at h
        simp only [Option.elim_some] at h
        simp only [hfs]
        rw [if_pos h]
        exact ⟨⟨.ENOEXEC, rfl⟩, rfl⟩

/-- Witness for C1 (amended): the theorem applied to a missing path and
to a file that is neither a script nor an ELF. -/
theorem c1_execve_preunmap_atomic_witness :
    ((∃ e, (Execve.sys_execve execWorld execSt0 "/nope" ["/nope"] [] 8).1 =
        .error e) ∧
      (Execve.sys_execve execWorld execSt0 "/nope" ["/nope"] [] 8).2 =
        execSt0) :=
  c1_execve_preunmap_atomic execWorld execSt0 "/nope" ["/nope"] [] 8
    (.inr (.inl rfl))
